import Mathlib

/-!
# SameGame grid engine: a shallow embedding of `program.cpp`

The C++ program keeps one `grid_data` value and mutates it in place.  Here
every function takes the grid and returns the new grid.

Conventions of the embedding:

* `int` values are `Int`.  The C++ operator `/` on `int` truncates toward zero
  and is `Int.tdiv`.  Indexes and dimensions of a grid are bounded by the size
  of its vector and are taken to fit in an `int`.  The arithmetic of
  `cell_under_mouse`, whose operands are arbitrary pixel coordinates and
  dimensions, is 32-bit: every result is wrapped with `int32`, the
  two's-complement value the compiled program computes (signed overflow is
  undefined behaviour in C++).
* `vector<cell_data>` is `List cell_data`.  Reading or writing `cells[k]` with
  `k` outside `[0, cells.size())` is undefined behaviour; the embedding returns
  `none` for it, so a result `some g` says that every access was in range.
* `rnd(5)` is a parameter: the stream of values it returns.
* `write_line` appends to a list of output lines.
-/

namespace Samegame

/-! ## Data model -/

/-- Modelled from the spec: the SplashKit type `color`, which is not part of the
repository.  Only the six palette constants the program ever stores in a cell
are represented. -/
inductive color where
  | COLOR_RED
  | COLOR_GREEN
  | COLOR_BLUE
  | COLOR_YELLOW
  | COLOR_PURPLE
  | COLOR_WHITE
  deriving DecidableEq, Repr

open color

/-- Modelled from the spec: SplashKit's `color_to_string`, the hexadecimal
`#rrggbbaa` text of a colour.  The six palette constants have six different
texts. -/
def color_to_string : color → String
  | COLOR_RED => "#ff0000ff"
  | COLOR_GREEN => "#008000ff"
  | COLOR_BLUE => "#0000ffff"
  | COLOR_YELLOW => "#ffff00ff"
  | COLOR_PURPLE => "#800080ff"
  | COLOR_WHITE => "#ffffffff"

/-- The struct `cell_data`. -/
structure cell_data where
  x_pos : Int
  y_pos : Int
  cell_colour : color
  deriving DecidableEq, Repr

/-- The struct `grid_data`. -/
structure grid_data where
  cells : List cell_data
  height : Int
  width : Int
  size : Int
  deriving DecidableEq, Repr

/-- The enum `available_colours`: `RED = 0`, ..., `WHITE = 5`. -/
inductive available_colours where
  | RED
  | GREEN
  | BLUE
  | YELLOW
  | PURPLE
  | WHITE
  deriving DecidableEq, Repr

/-- The integer value of an enumerator. -/
def available_colours.toInt : available_colours → Int
  | .RED => 0
  | .GREEN => 1
  | .BLUE => 2
  | .YELLOW => 3
  | .PURPLE => 4
  | .WHITE => 5

/-! ## Vector access -/

/-- The read `grid.cells[k]` for an `int` index: `none` when out of range. -/
def cell_at (grid : grid_data) (k : Int) : Option cell_data :=
  if k < 0 then none else grid.cells[k.toNat]?

/-- The write `grid.cells[k] = c` for an `int` index: `none` when out of range. -/
def set_cell (grid : grid_data) (k : Int) (c : cell_data) : Option grid_data :=
  if k < 0 then none
  else if k.toNat < grid.cells.length then
    some { grid with cells := grid.cells.set k.toNat c }
  else none

/-! ## Grid initialisation -/

/-- The function `initialise_grid`: sets the three dimensions and pushes one
white cell per iteration of the nested loops, `j` over `[0, columns)` outside
and `i` over `[0, rows)` inside, with `x_pos = i` and `y_pos = j`. -/
def initialise_grid (grid : grid_data) (rows columns size : Int) : grid_data :=
  { cells := grid.cells ++
      (List.range columns.toNat).flatMap (fun j =>
        (List.range rows.toNat).map (fun i =>
          ({ x_pos := (i : Int), y_pos := (j : Int), cell_colour := COLOR_WHITE } : cell_data)))
    height := rows
    width := columns
    size := size }

/-- The grid before `initialise_grid`: a default-constructed `grid_data` has no
cells; its integer fields are indeterminate and are overwritten at once. -/
def empty_grid : grid_data :=
  { cells := [], height := 0, width := 0, size := 0 }

/-! ## Colour assignment -/

/-- The function `choose_colour`, given the value `rnd(5)` returned: the cast to
the enum keeps the integer value, which is what `colour_cell` switches on. -/
def choose_colour (draw : Int) : Int := draw

/-- The function `colour_cell`, given the value `rnd(5)` returned.  The result
is the recoloured cell and the lines written. -/
def colour_cell (cell : cell_data) (draw : Int) : cell_data × List String :=
  let colour_index := choose_colour draw
  let selected : color × List String :=
    if colour_index = available_colours.RED.toInt then (COLOR_RED, [])
    else if colour_index = available_colours.BLUE.toInt then (COLOR_BLUE, [])
    else if colour_index = available_colours.GREEN.toInt then (COLOR_GREEN, [])
    else if colour_index = available_colours.YELLOW.toInt then (COLOR_YELLOW, [])
    else if colour_index = available_colours.PURPLE.toInt then (COLOR_PURPLE, [])
    else (COLOR_WHITE, ["Colour selection failed"])
  ({ cell with cell_colour := selected.1 }, selected.2)

/-- The loop of `assign_colours` over the remaining cells; `k` is the number of
draws made so far. -/
def assign_colours_loop (rnd : Nat → Int) : Nat → List cell_data → List cell_data × List String
  | _, [] => ([], [])
  | k, c :: rest =>
    let r := colour_cell c (rnd k)
    let t := assign_colours_loop rnd (k + 1) rest
    (r.1 :: t.1, r.2 ++ t.2)

/-- The function `assign_colours`: every cell in index order is recoloured with
the next draw.  The result is the new grid and the lines written. -/
def assign_colours (grid : grid_data) (rnd : Nat → Int) : grid_data × List String :=
  let r := assign_colours_loop rnd 0 grid.cells
  ({ grid with cells := r.1 }, r.2)

/-! ## Matching -/

/-- The function `same_colour`. -/
def same_colour (first_cell second_cell : cell_data) : Bool :=
  color_to_string first_cell.cell_colour == color_to_string second_cell.cell_colour

/-- The function `is_white`. -/
def is_white (cell : cell_data) : Bool :=
  color_to_string cell.cell_colour == color_to_string COLOR_WHITE

/-- The assignment `grid.cells[k].cell_colour = COLOR_WHITE`. -/
def set_white (grid : grid_data) (k : Int) : Option grid_data :=
  (cell_at grid k).bind fun c => set_cell grid k { c with cell_colour := COLOR_WHITE }

/-- The function `match_cells`. -/
def match_cells (grid : grid_data) (first_cell_index second_cell_index : Int)
    (original_cell : cell_data) : Option grid_data :=
  (cell_at grid second_cell_index).bind fun second_cell =>
    if same_colour original_cell second_cell then
      (set_white grid first_cell_index).bind fun g1 => set_white g1 second_cell_index
    else some grid

/-- The vector `cells_indexes_to_compare` that `check_neighbours` builds from
the copy of the clicked cell: up, right, down, left, each behind its border
test on the cell's stored position. -/
def cells_indexes_to_compare (grid : grid_data) (current_cell : cell_data)
    (current_cell_index : Int) : List Int :=
  (if current_cell.y_pos ≠ 0 then [current_cell_index - grid.width] else []) ++
  (if current_cell.x_pos ≠ grid.width - 1 then [current_cell_index + 1] else []) ++
  (if current_cell.y_pos ≠ grid.height - 1 then [current_cell_index + grid.width] else []) ++
  (if current_cell.x_pos ≠ 0 then [current_cell_index - 1] else [])

/-- The function `check_neighbours`. -/
def check_neighbours (grid : grid_data) (current_cell_index : Int) : Option grid_data :=
  (cell_at grid current_cell_index).bind fun current_cell =>
    (cells_indexes_to_compare grid current_cell current_cell_index).foldlM
      (fun g k => match_cells g current_cell_index k current_cell) grid

/-! ## Gravity -/

/-- The statement `swap(grid.cells[a].y_pos, grid.cells[b].y_pos)`. -/
def swap_y_pos (grid : grid_data) (a b : Int) : Option grid_data :=
  (cell_at grid a).bind fun ca =>
  (cell_at grid b).bind fun cb =>
  (set_cell grid a { ca with y_pos := cb.y_pos }).bind fun g1 =>
  (cell_at g1 b).bind fun cb1 =>
  set_cell g1 b { cb1 with y_pos := ca.y_pos }

/-- The statement `swap(grid.cells[a], grid.cells[b])`. -/
def swap_cells (grid : grid_data) (a b : Int) : Option grid_data :=
  (cell_at grid a).bind fun ca =>
  (cell_at grid b).bind fun cb =>
  (set_cell grid a cb).bind fun g1 => set_cell g1 b ca

/-- The body of the loop of `update_cell_positions` at index `i`.  The cell
tested for white is `cells[i + grid.height]`; the cell swapped with is
`cells[i + grid.width]`. -/
def update_cell_step (grid : grid_data) (i : Int) : Option grid_data :=
  (cell_at grid i).bind fun ci =>
    if ci.y_pos < grid.height - 1 then
      (cell_at grid (i + grid.height)).bind fun below =>
        if is_white below && !is_white ci then
          (swap_y_pos grid i (i + grid.width)).bind fun g1 =>
            swap_cells g1 i (i + grid.width)
        else some grid
    else some grid

/-- The first `k` iterations of the loop of `update_cell_positions`. -/
def update_cell_scan (grid : grid_data) (k : Nat) : Option grid_data :=
  (List.range k).foldlM (fun g (i : Nat) => update_cell_step g (i : Int)) grid

/-- The function `update_cell_positions`: the loop runs over every index. -/
def update_cell_positions (grid : grid_data) : Option grid_data :=
  update_cell_scan grid grid.cells.length

/-! ## Terminal detection -/

/-- One guarded comparison of `has_matches`: when the bounds test holds, the
result of `same_colour(grid.cells[i], grid.cells[k])`. -/
def compare_if (grid : grid_data) (test : Bool) (ci : cell_data) (k : Int) : Option Bool :=
  if test then (cell_at grid k).map (same_colour ci) else some false

/-- The body of the loop of `has_matches` at index `i`: `some true` when it
executes `return true`.  In `(i + grid.width) < grid.cells.size()` the left
side is converted to the unsigned size type, so a negative value compares as
larger than any size. -/
def has_matches_cell (grid : grid_data) (i : Int) : Option Bool :=
  (cell_at grid i).bind fun ci =>
    if is_white ci then some false
    else
      (compare_if grid (decide (i - grid.width > 0)) ci (i - grid.width)).bind fun up =>
      if up then some true
      else
      (compare_if grid (decide (i + 1 < grid.width)) ci (i + 1)).bind fun right =>
      if right then some true
      else
      (compare_if grid (decide (0 ≤ i + grid.width ∧ i + grid.width < (grid.cells.length : Int)))
        ci (i + grid.width)).bind fun down =>
      if down then some true
      else
      (compare_if grid (decide (i - 1 > 0)) ci (i - 1)).bind fun left =>
      if left then some true else some false

/-- The loop of `has_matches` over the remaining indexes. -/
def has_matches_loop (grid : grid_data) : List Nat → Option Bool
  | [] => some false
  | i :: rest =>
    (has_matches_cell grid (i : Int)).bind fun found =>
      if found then some true else has_matches_loop grid rest

/-- The function `has_matches`. -/
def has_matches (grid : grid_data) : Option Bool :=
  has_matches_loop grid (List.range grid.cells.length)

/-- The indexes that iteration `i` of `has_matches` compares cell `i` with when
the cell is not white and no earlier comparison returned: each neighbour index
whose bounds test holds. -/
def has_matches_indexes (grid : grid_data) (i : Int) : List Int :=
  (if i - grid.width > 0 then [i - grid.width] else []) ++
  (if i + 1 < grid.width then [i + 1] else []) ++
  (if 0 ≤ i + grid.width ∧ i + grid.width < (grid.cells.length : Int) then [i + grid.width]
   else []) ++
  (if i - 1 > 0 then [i - 1] else [])

/-! ## Input -/

/-- The value a 32-bit `int` holds for the arithmetic result `x`: `x` itself
when it lies in `[-2^31, 2^31)`, and otherwise its two's-complement
wrap-around. -/
def int32 (x : Int) : Int := (x + 2147483648) % 4294967296 - 2147483648

/-- The function `cell_under_mouse`, given the mouse coordinates converted to
`int`.  The two products of the bounds tests, the two quotients, the product
`cell_col * grid.width` and the final sum are `int` computations and are
wrapped to 32 bits.  Division by a zero cell size is undefined and gives
`none`. -/
def cell_under_mouse (grid : grid_data) (mouse_x mouse_y : Int) : Option Int :=
  if mouse_x < int32 (grid.width * grid.size) then
    if mouse_y < int32 (grid.height * grid.size) then
      if grid.size = 0 then none
      else
        let cell_row := int32 (mouse_x.tdiv grid.size)
        let cell_col := int32 (mouse_y.tdiv grid.size)
        some (int32 (cell_row + int32 (cell_col * grid.width)))
    else some (-1)
  else some (-1)

/-- The function `handle_input`, given what the input queries return: whether
the left button was clicked, the mouse coordinates, whether `R` was typed, and
the random draws.  The source calls `cell_under_mouse` twice, once for the
index and once for the test `>= 0`; both calls read the same mouse position.
The result is the new grid and the lines written. -/
def handle_input (grid : grid_data) (clicked : Bool) (mouse_x mouse_y : Int)
    (r_typed : Bool) (rnd : Nat → Int) : Option (grid_data × List String) :=
  (if clicked then
    (cell_under_mouse grid mouse_x mouse_y).bind fun cell_index =>
      if cell_index ≥ 0 then check_neighbours grid cell_index else some grid
   else some grid).bind fun g1 =>
    if r_typed then
      let r := assign_colours g1 rnd
      some (r.1, r.2 ++ ["Resetting colours"])
    else some (g1, [])

/-! ## Well-formed grids -/

/-- The layout the claims call well-formed: both dimensions at least one,
`width * height` cells, and the cell at index `k` stores column `k mod width`
and row `k div width`. -/
def WellFormed (g : grid_data) : Prop :=
  1 ≤ g.width ∧ 1 ≤ g.height ∧ (g.cells.length : Int) = g.width * g.height ∧
  ∀ k : Fin g.cells.length,
    (g.cells.get k).x_pos = ((k : Nat) : Int) % g.width ∧
    (g.cells.get k).y_pos = ((k : Nat) : Int) / g.width

instance (g : grid_data) : Decidable (WellFormed g) := by
  unfold WellFormed
  infer_instance

/-- The colour stored at index `k`, when `k` is in range. -/
def colour_at (g : grid_data) (k : Int) : Option color :=
  (cell_at g k).map (fun c => c.cell_colour)

/-- A grid of the given dimensions laid out row by row from a list of colours. -/
def grid_of (width height size : Int) (colours : List color) : grid_data :=
  { cells := colours.enum.map (fun p =>
      ({ x_pos := (p.1 : Int) % width, y_pos := (p.1 : Int) / width, cell_colour := p.2 } :
        cell_data))
    height := height
    width := width
    size := size }


/-- The cell with its colour replaced by white. -/
def whiten (c : cell_data) : cell_data := { c with cell_colour := COLOR_WHITE }

/-- From the claims' words: `k` is an in-bounds orthogonal neighbour of index `i`
in a `width` by `height` grid stored row by row: up `i - width`, right `i + 1`,
down `i + width`, left `i - 1`, inside the grid and, for left and right, on the
same row (no wraparound). -/
def orthogonal_neighbour (width height i k : Int) : Prop :=
  0 ≤ k ∧ k < width * height ∧
  (k = i - width ∨ (k = i + 1 ∧ k / width = i / width) ∨ k = i + width ∨
    (k = i - 1 ∧ k / width = i / width))

instance (width height i k : Int) : Decidable (orthogonal_neighbour width height i k) := by
  unfold orthogonal_neighbour
  infer_instance

/-- From the claims' words: the cells at indexes `i` and `k` of a grid of the
given width are orthogonally adjacent: same row and columns differing by one,
or same column and rows differing by one. -/
def adjacent (width i k : Int) : Prop :=
  (i / width = k / width ∧ (i % width = k % width + 1 ∨ k % width = i % width + 1)) ∨
  (i % width = k % width ∧ (i / width = k / width + 1 ∨ k / width = i / width + 1))

instance (width i k : Int) : Decidable (adjacent width i k) := by
  unfold adjacent
  infer_instance

/-- From the claims' words: the cell at index `i` is above the bottom row, is
not white, and the cell directly below it (index `i + width`) is white. -/
def can_fall (g : grid_data) (i : Int) : Prop :=
  i / g.width < g.height - 1 ∧ colour_at g (i + g.width) = some COLOR_WHITE ∧
  colour_at g i ≠ some COLOR_WHITE

instance (g : grid_data) (i : Int) : Decidable (can_fall g i) := by
  unfold can_fall
  infer_instance

/-! ## Game loop, repeated passes and columns -/

/-- The terminal check at the end of the loop body of `main`: when
`has_matches` is false, "You won!" is written and `assign_colours` runs.  The
result is the new grid and the lines written. -/
def terminal_check (grid : grid_data) (rnd : Nat → Int) : Option (grid_data × List String) :=
  (has_matches grid).bind fun found =>
    if !found then
      let r := assign_colours grid rnd
      some (r.1, "You won!" :: r.2)
    else some (grid, [])

/-- The grid after `t` successive calls of `update_cell_positions`, one per
iteration of the game loop. -/
def update_cell_passes : Nat → grid_data → Option grid_data
  | 0, g => some g
  | t + 1, g => (update_cell_passes t g).bind update_cell_positions

/-- From the claims' words: the colours of the non-white cells of column `c`,
read from the top row to the bottom row. -/
def column_colours (g : grid_data) (c : Int) : List color :=
  ((List.range g.height.toNat).filterMap
    (fun (r : Nat) => colour_at g (c + (r : Int) * g.width))).filter
    (fun x => decide (x ≠ COLOR_WHITE))

/-- From the claims' words: the grids the game can reach with an `n` by `n`
board of cell size `s`: the grid built by `initialise_grid`, and every grid
obtained from a reachable one by `assign_colours`, by `check_neighbours` at an
index in `[0, n*n)`, or by `update_cell_positions`. -/
inductive Reachable (n s : Int) : grid_data → Prop where
  | init : Reachable n s (initialise_grid empty_grid n n s)
  | assign (g : grid_data) (rnd : Nat → Int) :
      Reachable n s g → Reachable n s (assign_colours g rnd).1
  | click (g r : grid_data) (i : Int) :
      Reachable n s g → 0 ≤ i → i < n * n → check_neighbours g i = some r → Reachable n s r
  | settle (g r : grid_data) :
      Reachable n s g → update_cell_positions g = some r → Reachable n s r

/-- Column `c` is compacted: none of its cells is non-white with a white cell
directly below. -/
def col_compact (g : grid_data) (c : Int) : Prop :=
  ∀ j : Int, 0 ≤ j → j < g.width * g.height → j % g.width = c → ¬ can_fall g j

/-- Column `c` has no white cell in the rows from `T` down to the bottom. -/
def col_full_from (g : grid_data) (c T : Int) : Prop :=
  ∀ j : Int, 0 ≤ j → j < g.width * g.height → j % g.width = c → T ≤ j / g.width →
    colour_at g j ≠ some COLOR_WHITE

/-- The state of column `c` while a pass scans it, before iteration `k`: the
rows from `T` down are non-white, and some non-white cell `R` of the column,
at most in row `T - 1`, has no falling cell below it and is either still to
be scanned or cannot fall any further. -/
def carrier_inv (g : grid_data) (c T k : Int) : Prop :=
  col_full_from g c T ∧
  ∃ R : Int, 0 ≤ R ∧ R < g.width * g.height ∧ R % g.width = c ∧
    colour_at g R ≠ some COLOR_WHITE ∧ R / g.width + 1 ≤ T ∧
    (∀ j : Int, 0 ≤ j → j < g.width * g.height → j % g.width = c →
      R / g.width < j / g.width → ¬ can_fall g j) ∧
    (k ≤ R ∨ ¬ can_fall g R)

/-! ## Colours -/

theorem same_colour_iff (a b : cell_data) :
    same_colour a b = true ↔ a.cell_colour = b.cell_colour := by
  rcases a with ⟨ax, ay, ac⟩
  rcases b with ⟨bx, b_y, bc⟩
  cases ac <;> cases bc <;> simp [same_colour, color_to_string]

theorem is_white_iff (a : cell_data) : is_white a = true ↔ a.cell_colour = COLOR_WHITE := by
  rcases a with ⟨ax, ay, ac⟩
  cases ac <;> simp [is_white, color_to_string]

theorem colour_cell_playable (c : cell_data) (d : Int) (h0 : 0 ≤ d) (h5 : d < 5) :
    (colour_cell c d).1.cell_colour ≠ COLOR_WHITE ∧ (colour_cell c d).2 = [] ∧
    (colour_cell c d).1.x_pos = c.x_pos ∧ (colour_cell c d).1.y_pos = c.y_pos := by
  have h : d = 0 ∨ d = 1 ∨ d = 2 ∨ d = 3 ∨ d = 4 := by omega
  rcases h with h | h | h | h | h <;> subst h <;>
    simp [colour_cell, choose_colour, available_colours.toInt]

theorem assign_colours_loop_spec (rnd : Nat → Int) (cells : List cell_data) :
    ∀ k : Nat, (∀ j : Nat, j < cells.length → 0 ≤ rnd (k + j) ∧ rnd (k + j) < 5) →
      (∀ c ∈ (assign_colours_loop rnd k cells).1, c.cell_colour ≠ COLOR_WHITE) ∧
      (assign_colours_loop rnd k cells).2 = [] ∧
      (assign_colours_loop rnd k cells).1.map (fun c => (c.x_pos, c.y_pos)) =
        cells.map (fun c => (c.x_pos, c.y_pos)) := by
  induction cells with
  | nil => intro k _; simp [assign_colours_loop]
  | cons c rest ih =>
    intro k h
    have hd := h 0 (by simp)
    have hc := colour_cell_playable c (rnd k) (by simpa using hd.1) (by simpa using hd.2)
    have ht := ih (k + 1) (fun j hj => by
      have := h (j + 1) (by simpa using hj)
      rwa [show k + 1 + j = k + (j + 1) by omega])
    refine ⟨?_, ?_, ?_⟩
    · intro x hx
      simp only [assign_colours_loop, List.mem_cons] at hx
      rcases hx with hx | hx
      · rw [hx]; exact hc.1
      · exact ht.1 x hx
    · simp [assign_colours_loop, hc.2.1, ht.2.1]
    · simp only [assign_colours_loop, List.map_cons, ht.2.2, hc.2.2.1, hc.2.2.2]

/-- C7: when every value drawn from `rnd(5)` for a cell lies in `0..4`,
`assign_colours` leaves every cell with one of the five playable colours (so
none is white), writes no "Colour selection failed" line, and keeps the number
of cells, every stored position and the grid's dimensions. -/
theorem C7_assign_colours_playable (g : grid_data) (rnd : Nat → Int)
    (hdraw : ∀ k : Nat, k < g.cells.length →
      rnd k = 0 ∨ rnd k = 1 ∨ rnd k = 2 ∨ rnd k = 3 ∨ rnd k = 4) :
    (∀ c ∈ (assign_colours g rnd).1.cells,
      c.cell_colour = COLOR_RED ∨ c.cell_colour = COLOR_GREEN ∨ c.cell_colour = COLOR_BLUE ∨
      c.cell_colour = COLOR_YELLOW ∨ c.cell_colour = COLOR_PURPLE) ∧
    (∀ c ∈ (assign_colours g rnd).1.cells, is_white c = false) ∧
    (assign_colours g rnd).2 = [] ∧
    (assign_colours g rnd).1.cells.length = g.cells.length ∧
    (assign_colours g rnd).1.cells.map (fun c => (c.x_pos, c.y_pos)) =
      g.cells.map (fun c => (c.x_pos, c.y_pos)) ∧
    (assign_colours g rnd).1.width = g.width ∧
    (assign_colours g rnd).1.height = g.height ∧
    (assign_colours g rnd).1.size = g.size := by
  have hs := assign_colours_loop_spec rnd g.cells 0 (fun j hj => by
    have := hdraw j hj
    rw [Nat.zero_add]
    omega)
  have hlen : (assign_colours_loop rnd 0 g.cells).1.length = g.cells.length := by
    have := congrArg List.length hs.2.2
    simpa using this
  refine ⟨?_, ?_, hs.2.1, hlen, hs.2.2, rfl, rfl, rfl⟩
  · intro c hc
    have := hs.1 c hc
    cases hcol : c.cell_colour <;> simp_all
  · intro c hc
    have := hs.1 c hc
    cases hw : is_white c
    · rfl
    · exact absurd ((is_white_iff c).1 hw) this

/-- Witness for C7 on a two-cell grid with the draws `0, 0, ...`: nothing is
written and both cells are still there. -/
theorem C7_assign_colours_playable_witness :
    (assign_colours (grid_of 2 1 50 [COLOR_WHITE, COLOR_WHITE]) (fun _ => 0)).2 = [] ∧
    (assign_colours (grid_of 2 1 50 [COLOR_WHITE, COLOR_WHITE]) (fun _ => 0)).1.cells.length =
      (grid_of 2 1 50 [COLOR_WHITE, COLOR_WHITE]).cells.length :=
  ⟨(C7_assign_colours_playable (grid_of 2 1 50 [COLOR_WHITE, COLOR_WHITE]) (fun _ => 0)
    (fun _ _ => Or.inl rfl)).2.2.1,
   (C7_assign_colours_playable (grid_of 2 1 50 [COLOR_WHITE, COLOR_WHITE]) (fun _ => 0)
    (fun _ _ => Or.inl rfl)).2.2.2.1⟩

/-- C6: evaluation of `initialise_grid` on an empty grid with `rows = 1` and
`columns = 2`.  The result has `height = 1`, `width = 2` and two white cells
whose stored positions are `(0, 0)` and `(0, 1)`: the second has
`y_pos = 1 = height`, and the position `(1, 0)` of the rectangle
`[0, width) x [0, height)` is missing. -/
theorem C6_initialise_grid_one_by_two :
    (initialise_grid empty_grid 1 2 50).height = 1 ∧
    (initialise_grid empty_grid 1 2 50).width = 2 ∧
    (initialise_grid empty_grid 1 2 50).cells.map (fun c => (c.x_pos, c.y_pos, c.cell_colour)) =
      [(0, 0, COLOR_WHITE), (0, 1, COLOR_WHITE)] ∧
    ¬ (∀ c ∈ (initialise_grid empty_grid 1 2 50).cells,
        0 ≤ c.x_pos ∧ c.x_pos < (initialise_grid empty_grid 1 2 50).width ∧
        0 ≤ c.y_pos ∧ c.y_pos < (initialise_grid empty_grid 1 2 50).height) ∧
    ¬ (∃ c ∈ (initialise_grid empty_grid 1 2 50).cells, c.x_pos = 1 ∧ c.y_pos = 0) := by
  decide

/-! ## Click resolution -/

theorem cell_at_natCast (g : grid_data) (k : Nat) : cell_at g (k : Int) = g.cells[k]? := by
  simp [cell_at]

theorem wellFormed_cell_at (g : grid_data) (hg : WellFormed g) (k : Int) (h0 : 0 ≤ k)
    (hk : k < g.width * g.height) :
    ∃ c, cell_at g k = some c ∧ c.x_pos = k % g.width ∧ c.y_pos = k / g.width := by
  obtain ⟨hw, hh, hlen, hpos⟩ := hg
  obtain ⟨n, rfl⟩ := Int.eq_ofNat_of_zero_le h0
  have hn : n < g.cells.length := by
    have : (n : Int) < (g.cells.length : Int) := by rw [hlen]; exact hk
    exact_mod_cast this
  refine ⟨g.cells.get ⟨n, hn⟩, ?_, hpos ⟨n, hn⟩⟩
  rw [cell_at_natCast]
  simp [List.getElem?_eq_getElem hn]

theorem index_bounds (w h a b : Int) (ha0 : 0 ≤ a) (ha : a < w) (hb0 : 0 ≤ b) (hb : b < h) :
    0 ≤ a + b * w ∧ a + b * w < w * h := by
  have h1 : 0 ≤ b * w := Int.mul_nonneg hb0 (by omega)
  have h2 : b * w ≤ (h - 1) * w := Int.mul_le_mul_of_nonneg_right (by omega) (by omega)
  have h3 : (h - 1) * w = w * h - w := by ring
  constructor <;> omega

theorem index_mod_div (w a b : Int) (ha0 : 0 ≤ a) (ha : a < w) :
    (a + b * w) % w = a ∧ (a + b * w) / w = b := by
  constructor
  · rw [Int.add_mul_emod_self, Int.emod_eq_of_lt ha0 ha]
  · rw [Int.add_mul_ediv_right _ _ (by omega), Int.ediv_eq_zero_of_lt ha0 ha, Int.zero_add]

/-- C9: evaluation of `cell_under_mouse` and `handle_input` at the pixel
`(-1, 0)`, which lies outside `[0, 100) x [0, 100)`, on the well-formed 2 x 2
grid of 50-pixel cells coloured red, red, green, blue.  `cell_under_mouse`
returns index `0`, not a negative value, and `handle_input` runs
`check_neighbours` there: the two red cells become white.  The pixel
`(100, 0)` does resolve to `-1` and leaves the grid unchanged. -/
theorem C9_negative_pixel_selects_cell :
    WellFormed (grid_of 2 2 50 [COLOR_RED, COLOR_RED, COLOR_GREEN, COLOR_BLUE]) ∧
    cell_under_mouse (grid_of 2 2 50 [COLOR_RED, COLOR_RED, COLOR_GREEN, COLOR_BLUE]) (-1) 0 =
      some 0 ∧
    handle_input (grid_of 2 2 50 [COLOR_RED, COLOR_RED, COLOR_GREEN, COLOR_BLUE])
        true (-1) 0 false (fun _ => 0) =
      some (grid_of 2 2 50 [COLOR_WHITE, COLOR_WHITE, COLOR_GREEN, COLOR_BLUE], []) ∧
    cell_under_mouse (grid_of 2 2 50 [COLOR_RED, COLOR_RED, COLOR_GREEN, COLOR_BLUE]) 100 0 =
      some (-1) ∧
    handle_input (grid_of 2 2 50 [COLOR_RED, COLOR_RED, COLOR_GREEN, COLOR_BLUE])
        true 100 0 false (fun _ => 0) =
      some (grid_of 2 2 50 [COLOR_RED, COLOR_RED, COLOR_GREEN, COLOR_BLUE], []) := by
  decide

/-! ## Reading and writing cells -/

theorem cell_at_some_bounds (g : grid_data) (k : Int) (c : cell_data) (h : cell_at g k = some c) :
    0 ≤ k ∧ k < (g.cells.length : Int) := by
  unfold cell_at at h
  split at h
  · simp at h
  · have := (List.getElem?_eq_some.1 h).1
    omega

theorem cell_at_set_cell (g g1 : grid_data) (k : Int) (c : cell_data)
    (h : set_cell g k c = some g1) :
    g1.width = g.width ∧ g1.height = g.height ∧ g1.size = g.size ∧
    g1.cells.length = g.cells.length ∧
    ∀ j, cell_at g1 j = if j = k then some c else cell_at g j := by
  unfold set_cell at h
  split at h
  · simp at h
  · split at h
    · rename_i hk0 hklt
      simp only [Option.some.injEq] at h
      subst h
      refine ⟨rfl, rfl, rfl, by simp, ?_⟩
      intro j
      unfold cell_at
      by_cases hj0 : j < 0
      · have : j ≠ k := by omega
        simp [hj0, this]
      · simp only [hj0, if_false]
        by_cases hjk : j = k
        · subst hjk
          simp [List.getElem?_set, hklt]
        · have : k.toNat ≠ j.toNat := by omega
          simp [List.getElem?_set, this, hjk]
    · simp at h

theorem set_cell_isSome (g : grid_data) (k : Int) (c c1 : cell_data) (h : cell_at g k = some c) :
    ∃ g1, set_cell g k c1 = some g1 := by
  have hb := cell_at_some_bounds g k c h
  unfold set_cell
  have h1 : ¬ k < 0 := by omega
  have h2 : k.toNat < g.cells.length := by omega
  simp [h1, h2]

theorem set_white_spec (g : grid_data) (k : Int) (c : cell_data) (h : cell_at g k = some c) :
    ∃ g1, set_white g k = some g1 ∧
      g1.width = g.width ∧ g1.height = g.height ∧ g1.size = g.size ∧
      g1.cells.length = g.cells.length ∧
      ∀ j, cell_at g1 j =
        if j = k then some (whiten c) else cell_at g j := by
  obtain ⟨g1, hg1⟩ := set_cell_isSome g k c (whiten c) h
  refine ⟨g1, ?_, cell_at_set_cell g g1 k _ hg1⟩
  simpa [set_white, h, whiten] using hg1

theorem match_cells_spec (g : grid_data) (first second : Int) (orig cf cs : cell_data)
    (hf : cell_at g first = some cf) (hs : cell_at g second = some cs) :
    ∃ g1, match_cells g first second orig = some g1 ∧
      g1.width = g.width ∧ g1.height = g.height ∧ g1.size = g.size ∧
      g1.cells.length = g.cells.length ∧
      (cs.cell_colour ≠ orig.cell_colour → g1 = g) ∧
      (cs.cell_colour = orig.cell_colour → ∀ j, cell_at g1 j =
        if j = first ∨ j = second then
          (cell_at g j).map whiten
        else cell_at g j) := by
  by_cases hm : cs.cell_colour = orig.cell_colour
  · obtain ⟨g1, hg1, hw1, hh1, hs1, hl1, hc1⟩ := set_white_spec g first cf hf
    have hs1' : cell_at g1 second =
        some (if second = first then whiten cf else cs) := by
      rw [hc1 second]
      split <;> simp [hs]
    obtain ⟨g2, hg2, hw2, hh2, hs2, hl2, hc2⟩ := set_white_spec g1 second _ hs1'
    refine ⟨g2, ?_, by omega, by omega, by omega, by omega, fun h => absurd hm h, ?_⟩
    · have hsc : same_colour orig cs = true := (same_colour_iff orig cs).2 hm.symm
      simp [match_cells, hs, hsc, hg1, hg2]
    · intro _ j
      rw [hc2 j, hc1 j]
      by_cases hj2 : j = second
      · subst hj2
        by_cases hjf : j = first
        · subst hjf; simp [hf, whiten]
        · simp [hjf, hs]
      · by_cases hjf : j = first
        · subst hjf; simp [hj2, hf]
        · simp [hj2, hjf]
  · refine ⟨g, ?_, rfl, rfl, rfl, rfl, fun _ => rfl, fun h => absurd h hm⟩
    have hsc : same_colour orig cs = false := by
      cases hb : same_colour orig cs
      · rfl
      · exact absurd ((same_colour_iff orig cs).1 hb).symm hm
    simp [match_cells, hs, hsc]

/-! ## The matching loop -/

theorem whiten_whiten (c : cell_data) : whiten (whiten c) = whiten c := rfl

theorem whiten_colour (c : cell_data) : (whiten c).cell_colour = COLOR_WHITE := rfl

theorem colour_at_eq (g : grid_data) (k : Int) (c : cell_data) (h : cell_at g k = some c) :
    colour_at g k = some c.cell_colour := by
  simp [colour_at, h]

theorem fold_match_spec (idx : Int) (orig : cell_data) (l : List Int) :
    ∀ g : grid_data, (cell_at g idx).isSome → (∀ k ∈ l, (cell_at g k).isSome) → l.Nodup →
      idx ∉ l →
      ∃ r, l.foldlM (fun g k => match_cells g idx k orig) g = some r ∧
        r.width = g.width ∧ r.height = g.height ∧ r.size = g.size ∧
        r.cells.length = g.cells.length ∧
        (∀ j, j ≠ idx → j ∉ l → cell_at r j = cell_at g j) ∧
        (∀ j ∈ l, cell_at r j =
          if colour_at g j = some orig.cell_colour then (cell_at g j).map whiten
          else cell_at g j) ∧
        (cell_at r idx =
          if ∃ m ∈ l, colour_at g m = some orig.cell_colour then (cell_at g idx).map whiten
          else cell_at g idx) ∧
        ((∀ m ∈ l, colour_at g m ≠ some orig.cell_colour) → r = g) := by
  induction l with
  | nil =>
    intro g _ _ _ _
    exact ⟨g, by simp⟩
  | cons m rest ih =>
    intro g hidx hl hnd hni
    obtain ⟨cf, hcf⟩ := Option.isSome_iff_exists.1 hidx
    obtain ⟨cs, hcs⟩ := Option.isSome_iff_exists.1 (hl m (by simp))
    have hmi : m ≠ idx := fun h => hni (by simp [h])
    have hmr : m ∉ rest := (List.nodup_cons.1 hnd).1
    have hndr : rest.Nodup := (List.nodup_cons.1 hnd).2
    have hnir : idx ∉ rest := fun h => hni (List.mem_cons_of_mem _ h)
    obtain ⟨g2, hg2, hw2, hh2, hs2, hl2, hne2, heq2⟩ := match_cells_spec g idx m orig cf cs hcf hcs
    have hcm : colour_at g m = some cs.cell_colour := colour_at_eq g m cs hcs
    by_cases hm : cs.cell_colour = orig.cell_colour
    · -- the neighbour matches: both cells are whitened
      have hc2 := heq2 hm
      have hidx2 : (cell_at g2 idx).isSome := by rw [hc2 idx]; simp [hcf]
      have hl2' : ∀ k ∈ rest, (cell_at g2 k).isSome := by
        intro k hk
        have := hl k (List.mem_cons_of_mem _ hk)
        rw [hc2 k]
        split
        · simpa using this
        · exact this
      obtain ⟨r, hr, hw, hh, hs, hlen, ha, hb, hc, _⟩ := ih g2 hidx2 hl2' hndr hnir
      have hrest : ∀ j ∈ rest, cell_at g2 j = cell_at g j := by
        intro j hj
        have h1 : j ≠ idx := fun h => hnir (h ▸ hj)
        have h2 : j ≠ m := fun h => hmr (h ▸ hj)
        rw [hc2 j]; simp [h1, h2]
      refine ⟨r, ?_, by omega, by omega, by omega, by omega, ?_, ?_, ?_, ?_⟩
      · simp [List.foldlM_cons, hg2, hr]
      · intro j hji hjl
        have hjm : j ≠ m := fun h => hjl (by simp [h])
        have hjr : j ∉ rest := fun h => hjl (List.mem_cons_of_mem _ h)
        rw [ha j hji hjr, hc2 j]; simp [hji, hjm]
      · intro j hj
        rcases List.mem_cons.1 hj with hjm | hjr
        · subst hjm
          rw [ha j hmi hmr, hc2 j, hcm, hm]; simp
        · rw [hb j hjr]
          simp only [colour_at, hrest j hjr]
      · have hex : ∃ m' ∈ m :: rest, colour_at g m' = some orig.cell_colour :=
          ⟨m, by simp, by rw [hcm, hm]⟩
        rw [if_pos hex, hc, hc2 idx]
        simp only [true_or, if_true]
        split <;> simp [hcf, whiten_whiten]
      · intro hno
        exact absurd (by rw [hcm, hm]) (hno m (by simp))
    · -- no match: the grid is unchanged
      have hg2eq := hne2 hm
      subst hg2eq
      obtain ⟨r, hr, hw, hh, hs, hlen, ha, hb, hc, hd⟩ :=
        ih g2 hidx (fun k hk => hl k (List.mem_cons_of_mem _ hk)) hndr hnir
      have hcm' : colour_at g2 m ≠ some orig.cell_colour := by
        rw [hcm]; simpa using hm
      refine ⟨r, ?_, hw, hh, hs, hlen, ?_, ?_, ?_, ?_⟩
      · simp [List.foldlM_cons, hg2, hr]
      · intro j hji hjl
        exact ha j hji (fun h => hjl (List.mem_cons_of_mem _ h))
      · intro j hj
        rcases List.mem_cons.1 hj with hjm | hjr
        · subst hjm
          rw [ha j hmi hmr, if_neg hcm']
        · exact hb j hjr
      · rw [hc]
        have : (∃ m' ∈ m :: rest, colour_at g2 m' = some orig.cell_colour) ↔
            ∃ m' ∈ rest, colour_at g2 m' = some orig.cell_colour := by
          constructor
          · rintro ⟨m', hm', hcol⟩
            rcases List.mem_cons.1 hm' with h | h
            · subst h; exact absurd hcol hcm'
            · exact ⟨m', h, hcol⟩
          · rintro ⟨m', hm', hcol⟩
            exact ⟨m', List.mem_cons_of_mem _ hm', hcol⟩
        simp only [this]
      · intro hno
        exact hd (fun m' hm' => hno m' (List.mem_cons_of_mem _ hm'))

/-! ## Rows, columns and neighbours -/

theorem row_col (w i : Int) (hw : 1 ≤ w) (hi : 0 ≤ i) :
    0 ≤ i % w ∧ i % w < w ∧ 0 ≤ i / w ∧ (i / w) * w + i % w = i := by
  refine ⟨Int.emod_nonneg i (by omega), Int.emod_lt_of_pos i (by omega),
    Int.ediv_nonneg hi (by omega), ?_⟩
  have := Int.ediv_add_emod i w
  rw [Int.mul_comm] at this
  exact this

theorem row_lt (w h i : Int) (hw : 1 ≤ w) (hi : i < w * h) : i / w < h :=
  Int.ediv_lt_of_lt_mul (by omega) (by rw [Int.mul_comm]; exact hi)

theorem div_of_decomp (w i a b : Int) (ha0 : 0 ≤ a) (ha : a < w) (h : i = a + b * w) :
    i / w = b ∧ i % w = a := by
  subst h
  exact ⟨(index_mod_div w a b ha0 ha).2, (index_mod_div w a b ha0 ha).1⟩

theorem mul_row_le (w y h : Int) (hw : 1 ≤ w) (hy : y ≤ h) : y * w ≤ h * w :=
  Int.mul_le_mul_of_nonneg_right hy (by omega)

theorem neighbours_iff (g : grid_data) (hg : WellFormed g) (i : Int) (h0 : 0 ≤ i)
    (hi : i < g.width * g.height) (c : cell_data) (hc : cell_at g i = some c) (k : Int) :
    k ∈ cells_indexes_to_compare g c i ↔ orthogonal_neighbour g.width g.height i k := by
  obtain ⟨c1, hc1, hx, hy⟩ := wellFormed_cell_at g hg i h0 hi
  rw [hc] at hc1
  cases hc1
  have hw : 1 ≤ g.width := hg.1
  obtain ⟨hx0, hxw, hy0, hdec⟩ := row_col g.width i hw h0
  have hyh := row_lt g.width g.height i hw hi
  have hcomm : g.width * g.height = g.height * g.width := Int.mul_comm _ _
  have hle1 := mul_row_le g.width (i / g.width) (g.height - 1) hw (by omega)
  have hexp : (g.height - 1) * g.width = g.height * g.width - g.width := by ring
  have hyw0 : 0 ≤ (i / g.width) * g.width := Int.mul_nonneg hy0 (by omega)
  have hsucc : i % g.width ≠ g.width - 1 → (i + 1) / g.width = i / g.width := fun h =>
    (div_of_decomp g.width (i + 1) (i % g.width + 1) (i / g.width) (by omega) (by omega)
      (by omega)).1
  have hsucc' : i % g.width = g.width - 1 → (i + 1) / g.width = i / g.width + 1 := fun h =>
    (div_of_decomp g.width (i + 1) 0 (i / g.width + 1) (by omega) (by omega)
      (by rw [Int.add_mul]; omega)).1
  have hpred : i % g.width ≠ 0 → (i - 1) / g.width = i / g.width := fun h =>
    (div_of_decomp g.width (i - 1) (i % g.width - 1) (i / g.width) (by omega) (by omega)
      (by omega)).1
  have hpred' : i % g.width = 0 → (i - 1) / g.width = i / g.width - 1 := fun h =>
    (div_of_decomp g.width (i - 1) (g.width - 1) (i / g.width - 1) (by omega) (by omega)
      (by rw [Int.sub_mul]; omega)).1
  have hup : i / g.width ≠ 0 → g.width ≤ (i / g.width) * g.width := fun h => by
    have := mul_row_le g.width 1 (i / g.width) hw (by omega)
    omega
  have hdown : i / g.width ≠ g.height - 1 →
      (i / g.width) * g.width ≤ g.height * g.width - 2 * g.width := fun h => by
    have := mul_row_le g.width (i / g.width) (g.height - 2) hw (by omega)
    have e : (g.height - 2) * g.width = g.height * g.width - 2 * g.width := by ring
    omega
  unfold cells_indexes_to_compare orthogonal_neighbour
  rw [hx, hy]
  simp only [List.mem_append]
  constructor
  · rintro (((h | h) | h) | h)
    · split at h
      · rename_i hne
        have := hup hne
        simp only [List.mem_singleton] at h
        refine ⟨by omega, by omega, Or.inl h⟩
      · simp at h
    · split at h
      · rename_i hne
        have := hsucc hne
        simp only [List.mem_singleton] at h
        subst h
        refine ⟨by omega, by omega, Or.inr (Or.inl ⟨rfl, this⟩)⟩
      · simp at h
    · split at h
      · rename_i hne
        have := hdown hne
        simp only [List.mem_singleton] at h
        refine ⟨by omega, by omega, Or.inr (Or.inr (Or.inl h))⟩
      · simp at h
    · split at h
      · rename_i hne
        have := hpred hne
        simp only [List.mem_singleton] at h
        subst h
        refine ⟨by omega, by omega, Or.inr (Or.inr (Or.inr ⟨rfl, this⟩))⟩
      · simp at h
  · rintro ⟨hk0, hk, h | ⟨h, hrow⟩ | h | ⟨h, hrow⟩⟩
    · left; left; left
      have hne : i / g.width ≠ 0 := by
        intro hz
        rw [hz] at hdec
        omega
      rw [if_pos hne]; simp [h]
    · left; left; right
      have hne : i % g.width ≠ g.width - 1 := by
        intro hz
        have := hsucc' hz
        rw [h] at hrow
        omega
      rw [if_pos hne]; simp [h]
    · left; right
      have hne : i / g.width ≠ g.height - 1 := by
        intro hz
        rw [hz] at hdec
        omega
      rw [if_pos hne]; simp [h]
    · right
      have hne : i % g.width ≠ 0 := by
        intro hz
        have := hpred' hz
        rw [h] at hrow
        omega
      rw [if_pos hne]; simp [h]

theorem neighbours_nodup (g : grid_data) (c : cell_data) (i : Int) (hw : 1 ≤ g.width)
    (hx0 : 0 ≤ c.x_pos) (hxw : c.x_pos < g.width) :
    (cells_indexes_to_compare g c i).Nodup ∧ i ∉ cells_indexes_to_compare g c i := by
  unfold cells_indexes_to_compare
  constructor
  · split <;> split <;> split <;> split <;> simp <;> omega
  · split <;> split <;> split <;> split <;> simp <;> omega

/-! ## Well-formedness through `cell_at` -/

theorem cell_at_isSome (g : grid_data) (k : Int) (h0 : 0 ≤ k) (hk : k < (g.cells.length : Int)) :
    ∃ c, cell_at g k = some c := by
  obtain ⟨n, rfl⟩ := Int.eq_ofNat_of_zero_le h0
  have hn : n < g.cells.length := by exact_mod_cast hk
  exact ⟨g.cells.get ⟨n, hn⟩, by rw [cell_at_natCast]; simp [List.getElem?_eq_getElem hn]⟩

theorem wellFormed_of_cell_at (g : grid_data) (hw : 1 ≤ g.width) (hh : 1 ≤ g.height)
    (hlen : (g.cells.length : Int) = g.width * g.height)
    (hpos : ∀ k : Int, 0 ≤ k → k < g.width * g.height → ∀ c, cell_at g k = some c →
      c.x_pos = k % g.width ∧ c.y_pos = k / g.width) :
    WellFormed g := by
  refine ⟨hw, hh, hlen, ?_⟩
  intro k
  have hk : ((k : Nat) : Int) < g.width * g.height := by
    rw [← hlen]; exact_mod_cast k.2
  apply hpos (k : Nat) (by omega) hk
  rw [cell_at_natCast]
  simp [List.getElem?_eq_getElem k.2]

theorem wellFormed_pos (g : grid_data) (hg : WellFormed g) (k : Int) (c : cell_data)
    (hc : cell_at g k = some c) : c.x_pos = k % g.width ∧ c.y_pos = k / g.width := by
  have hb := cell_at_some_bounds g k c hc
  obtain ⟨c1, hc1, hx, hy⟩ := wellFormed_cell_at g hg k hb.1 (by rw [← hg.2.2.1]; exact hb.2)
  rw [hc] at hc1
  cases hc1
  exact ⟨hx, hy⟩

/-- A grid with the dimensions of a well-formed grid whose cells keep their
stored positions is well-formed. -/
theorem wellFormed_of_same_positions (g r : grid_data) (hg : WellFormed g)
    (hw : r.width = g.width) (hh : r.height = g.height)
    (hlen : r.cells.length = g.cells.length)
    (hpos : ∀ k c, cell_at r k = some c →
      ∃ c0, cell_at g k = some c0 ∧ c.x_pos = c0.x_pos ∧ c.y_pos = c0.y_pos) :
    WellFormed r := by
  apply wellFormed_of_cell_at r (by rw [hw]; exact hg.1) (by rw [hh]; exact hg.2.1)
    (by rw [hlen, hw, hh]; exact hg.2.2.1)
  intro k _ _ c hc
  obtain ⟨c0, hc0, hx, hy⟩ := hpos k c hc
  have := wellFormed_pos g hg k c0 hc0
  rw [hw, hx, hy]
  exact this

/-! ## `check_neighbours` -/

theorem check_neighbours_spec (g : grid_data) (hg : WellFormed g) (i : Int) (h0 : 0 ≤ i)
    (hi : i < g.width * g.height) :
    ∃ c r, cell_at g i = some c ∧ check_neighbours g i = some r ∧
      r.width = g.width ∧ r.height = g.height ∧ r.size = g.size ∧
      r.cells.length = g.cells.length ∧
      (∀ j, j ≠ i → ¬ orthogonal_neighbour g.width g.height i j → cell_at r j = cell_at g j) ∧
      (∀ j, orthogonal_neighbour g.width g.height i j → cell_at r j =
        if colour_at g j = some c.cell_colour then (cell_at g j).map whiten else cell_at g j) ∧
      ((∃ m, orthogonal_neighbour g.width g.height i m ∧ colour_at g m = some c.cell_colour) →
        cell_at r i = some (whiten c)) ∧
      ((∀ m, orthogonal_neighbour g.width g.height i m → colour_at g m ≠ some c.cell_colour) →
        r = g) := by
  obtain ⟨c, hc, hx, hy⟩ := wellFormed_cell_at g hg i h0 hi
  obtain ⟨hx0, hxw, _, _⟩ := row_col g.width i hg.1 h0
  have hnd := neighbours_nodup g c i hg.1 (by rw [hx]; exact hx0) (by rw [hx]; exact hxw)
  have hiff := neighbours_iff g hg i h0 hi c hc
  have hvalid : ∀ k ∈ cells_indexes_to_compare g c i, (cell_at g k).isSome := by
    intro k hk
    have hn := (hiff k).1 hk
    obtain ⟨ck, hck, _⟩ := wellFormed_cell_at g hg k hn.1 hn.2.1
    simp [hck]
  obtain ⟨r, hr, hw, hh, hs, hlen, ha, hb, hcc, hd⟩ :=
    fold_match_spec i c (cells_indexes_to_compare g c i) g (by simp [hc]) hvalid hnd.1 hnd.2
  refine ⟨c, r, hc, ?_, hw, hh, hs, hlen, ?_, ?_, ?_, ?_⟩
  · simp [check_neighbours, hc, hr]
  · intro j hji hjn
    exact ha j hji (fun h => hjn ((hiff j).1 h))
  · intro j hjn
    exact hb j ((hiff j).2 hjn)
  · rintro ⟨m, hm, hcol⟩
    rw [hcc, hc, if_pos ⟨m, (hiff m).2 hm, hcol⟩]
    rfl
  · intro hno
    exact hd (fun m hm => hno m ((hiff m).1 hm))

theorem check_neighbours_wellFormed (g : grid_data) (hg : WellFormed g) (i : Int) (h0 : 0 ≤ i)
    (hi : i < g.width * g.height) :
    ∃ r, check_neighbours g i = some r ∧ WellFormed r ∧ r.size = g.size := by
  obtain ⟨c, r, hc, hr, hw, hh, hs, hlen, ha, hb, hcc, hd⟩ := check_neighbours_spec g hg i h0 hi
  refine ⟨r, hr, wellFormed_of_same_positions g r hg hw hh hlen ?_, hs⟩
  intro k ck hck
  by_cases hki : k = i
  · subst hki
    refine ⟨c, hc, ?_⟩
    by_cases hex : ∃ m, orthogonal_neighbour g.width g.height k m ∧
        colour_at g m = some c.cell_colour
    · rw [hcc hex] at hck
      cases hck
      exact ⟨rfl, rfl⟩
    · have hrg := hd (fun m hm hcol => hex ⟨m, hm, hcol⟩)
      rw [hrg, hc] at hck
      cases hck
      exact ⟨rfl, rfl⟩
  · by_cases hn : orthogonal_neighbour g.width g.height i k
    · rw [hb k hn] at hck
      split at hck
      · obtain ⟨c0, hc0, hmap⟩ := Option.map_eq_some'.1 hck
        exact ⟨c0, hc0, by rw [← hmap]; exact ⟨rfl, rfl⟩⟩
      · exact ⟨ck, hck, rfl, rfl⟩
    · rw [ha k hki hn] at hck
      exact ⟨ck, hck, rfl, rfl⟩

/-- C1: on a well-formed grid, clicking an in-range cell `i` that has at least
one in-bounds orthogonal neighbour of its own colour makes `check_neighbours`
return a grid in which cell `i` is white, every in-bounds orthogonal neighbour
that had the colour of cell `i` is white, and every other cell has the colour
it had before. -/
theorem C1_check_neighbours_clears_matches (g : grid_data) (i : Int) (hg : WellFormed g)
    (h0 : 0 ≤ i) (hi : i < g.width * g.height)
    (hmatch : ∃ k, orthogonal_neighbour g.width g.height i k ∧ colour_at g k = colour_at g i) :
    ∃ r, check_neighbours g i = some r ∧
      colour_at r i = some COLOR_WHITE ∧
      (∀ k, orthogonal_neighbour g.width g.height i k → colour_at g k = colour_at g i →
        colour_at r k = some COLOR_WHITE) ∧
      (∀ k, k ≠ i →
        ¬ (orthogonal_neighbour g.width g.height i k ∧ colour_at g k = colour_at g i) →
        colour_at r k = colour_at g k) := by
  obtain ⟨c, r, hc, hr, _, _, _, _, ha, hb, hcc, _⟩ := check_neighbours_spec g hg i h0 hi
  have hci : colour_at g i = some c.cell_colour := colour_at_eq g i c hc
  rw [hci] at hmatch
  refine ⟨r, hr, ?_, ?_, ?_⟩
  · rw [colour_at, hcc hmatch]
    rfl
  · intro k hk hcol
    rw [hci] at hcol
    obtain ⟨ck, hck, _⟩ := wellFormed_cell_at g hg k hk.1 hk.2.1
    rw [colour_at, hb k hk, if_pos hcol, hck]
    rfl
  · intro k hki hnot
    rw [hci] at hnot
    by_cases hk : orthogonal_neighbour g.width g.height i k
    · have hcol : ¬ colour_at g k = some c.cell_colour := fun h => hnot ⟨hk, h⟩
      rw [colour_at, hb k hk, if_neg hcol]
      rfl
    · rw [colour_at, ha k hki hk]
      rfl

/-- Witness for C1: clicking index 0 of the 2 x 2 grid red, red, red, blue. -/
theorem C1_check_neighbours_clears_matches_witness :
    ∃ r, check_neighbours (grid_of 2 2 50 [COLOR_RED, COLOR_RED, COLOR_RED, COLOR_BLUE]) 0 =
        some r ∧
      colour_at r 0 = some COLOR_WHITE ∧
      (∀ k, orthogonal_neighbour 2 2 0 k →
        colour_at (grid_of 2 2 50 [COLOR_RED, COLOR_RED, COLOR_RED, COLOR_BLUE]) k =
          colour_at (grid_of 2 2 50 [COLOR_RED, COLOR_RED, COLOR_RED, COLOR_BLUE]) 0 →
        colour_at r k = some COLOR_WHITE) ∧
      (∀ k, k ≠ 0 →
        ¬ (orthogonal_neighbour 2 2 0 k ∧
          colour_at (grid_of 2 2 50 [COLOR_RED, COLOR_RED, COLOR_RED, COLOR_BLUE]) k =
            colour_at (grid_of 2 2 50 [COLOR_RED, COLOR_RED, COLOR_RED, COLOR_BLUE]) 0) →
        colour_at r k =
          colour_at (grid_of 2 2 50 [COLOR_RED, COLOR_RED, COLOR_RED, COLOR_BLUE]) k) :=
  C1_check_neighbours_clears_matches
    (grid_of 2 2 50 [COLOR_RED, COLOR_RED, COLOR_RED, COLOR_BLUE]) 0 (by decide) (by decide)
    (by decide) ⟨1, by decide, by decide⟩

/-- C2: on a well-formed grid, clicking an in-range cell `i` none of whose
in-bounds orthogonal neighbours has the colour of cell `i` makes
`check_neighbours` return the very same grid: all cells, width, height and
size are as before. -/
theorem C2_check_neighbours_no_match (g : grid_data) (i : Int) (hg : WellFormed g)
    (h0 : 0 ≤ i) (hi : i < g.width * g.height)
    (hno : ∀ k, orthogonal_neighbour g.width g.height i k → colour_at g k ≠ colour_at g i) :
    check_neighbours g i = some g := by
  obtain ⟨c, r, hc, hr, _, _, _, _, _, _, _, hd⟩ := check_neighbours_spec g hg i h0 hi
  have hci : colour_at g i = some c.cell_colour := colour_at_eq g i c hc
  rw [hci] at hno
  rw [hr, hd hno]

/-- Witness for C2: clicking index 3 (blue) of the 2 x 2 grid red, red, red,
blue changes nothing. -/
theorem C2_check_neighbours_no_match_witness :
    check_neighbours (grid_of 2 2 50 [COLOR_RED, COLOR_RED, COLOR_RED, COLOR_BLUE]) 3 =
      some (grid_of 2 2 50 [COLOR_RED, COLOR_RED, COLOR_RED, COLOR_BLUE]) :=
  C2_check_neighbours_no_match
    (grid_of 2 2 50 [COLOR_RED, COLOR_RED, COLOR_RED, COLOR_BLUE]) 3 (by decide) (by decide)
    (by decide) (by
      intro k hk
      have hk2 : orthogonal_neighbour 2 2 3 k := hk
      have h1 : k = 1 ∨ k = 2 := by
        obtain ⟨_, hlt, h | ⟨h, _⟩ | h | ⟨h, _⟩⟩ := hk2 <;> omega
      rcases h1 with h | h <;> subst h <;> decide)

/-! ## Accesses of `has_matches` -/

theorem compare_if_isSome (g : grid_data) (test : Bool) (ci : cell_data) (k : Int)
    (h : test = true → 0 ≤ k ∧ k < (g.cells.length : Int)) :
    ∃ b, compare_if g test ci k = some b := by
  unfold compare_if
  cases test
  · exact ⟨false, rfl⟩
  · obtain ⟨c, hc⟩ := cell_at_isSome g k (h rfl).1 (h rfl).2
    exact ⟨same_colour ci c, by simp [hc]⟩

theorem has_matches_cell_isSome (g : grid_data) (hw : 1 ≤ g.width)
    (hlen : g.width ≤ (g.cells.length : Int)) (i : Int) (h0 : 0 ≤ i)
    (hi : i < (g.cells.length : Int)) :
    ∃ b, has_matches_cell g i = some b := by
  obtain ⟨ci, hci⟩ := cell_at_isSome g i h0 hi
  obtain ⟨u, hu⟩ := compare_if_isSome g (decide (i - g.width > 0)) ci (i - g.width)
    (fun h => by have := of_decide_eq_true h; omega)
  obtain ⟨r, hr⟩ := compare_if_isSome g (decide (i + 1 < g.width)) ci (i + 1)
    (fun h => by have := of_decide_eq_true h; omega)
  obtain ⟨d, hd⟩ := compare_if_isSome g
    (decide (0 ≤ i + g.width ∧ i + g.width < (g.cells.length : Int))) ci (i + g.width)
    (fun h => of_decide_eq_true h)
  obtain ⟨l, hl⟩ := compare_if_isSome g (decide (i - 1 > 0)) ci (i - 1)
    (fun h => by have := of_decide_eq_true h; omega)
  unfold has_matches_cell
  simp only [hci, Option.some_bind, hu, hr, hd, hl]
  cases is_white ci <;> cases u <;> cases r <;> cases d <;> cases l <;> simp

theorem has_matches_loop_isSome (g : grid_data) (hw : 1 ≤ g.width)
    (hlen : g.width ≤ (g.cells.length : Int)) (l : List Nat)
    (hl : ∀ i ∈ l, i < g.cells.length) : ∃ b, has_matches_loop g l = some b := by
  induction l with
  | nil => exact ⟨false, rfl⟩
  | cons i rest ih =>
    obtain ⟨b, hb⟩ := has_matches_cell_isSome g hw hlen (i : Int) (by omega)
      (by exact_mod_cast hl i (by simp))
    obtain ⟨b1, hb1⟩ := ih (fun j hj => hl j (List.mem_cons_of_mem _ hj))
    unfold has_matches_loop
    rw [hb]
    cases b
    · exact ⟨b1, by simp [hb1]⟩
    · exact ⟨true, by simp⟩

theorem width_le_cells (g : grid_data) (hg : WellFormed g) :
    g.width ≤ (g.cells.length : Int) := by
  rw [hg.2.2.1]
  have := Int.mul_le_mul_of_nonneg_left hg.2.1 (show (0 : Int) ≤ g.width by have := hg.1; omega)
  omega

theorem compare_if_eq_any (g : grid_data) (t : Prop) [Decidable t] (ci : cell_data) (k : Int)
    (h : t → ∃ c, cell_at g k = some c) :
    compare_if g (decide t) ci k =
      some ((if t then [k] else []).any
        (fun k => ((cell_at g k).map (same_colour ci)).getD false)) := by
  unfold compare_if
  by_cases ht : t
  · obtain ⟨c, hc⟩ := h ht
    simp [ht, hc]
  · simp [ht]

/-- Iteration `i` of `has_matches` on a non-white cell returns true exactly when
one of the indexes of `has_matches_indexes` holds a cell of the same colour. -/
theorem has_matches_cell_eq_any (g : grid_data) (i : Int) (ci : cell_data)
    (hci : cell_at g i = some ci) (hnw : is_white ci = false)
    (hvalid : ∀ k ∈ has_matches_indexes g i, ∃ c, cell_at g k = some c) :
    has_matches_cell g i =
      some ((has_matches_indexes g i).any
        (fun k => ((cell_at g k).map (same_colour ci)).getD false)) := by
  unfold has_matches_indexes at hvalid ⊢
  simp only [List.mem_append] at hvalid
  have hu := compare_if_eq_any g (i - g.width > 0) ci (i - g.width)
    (fun h => hvalid _ (Or.inl (Or.inl (Or.inl (by simp [h])))))
  have hr := compare_if_eq_any g (i + 1 < g.width) ci (i + 1)
    (fun h => hvalid _ (Or.inl (Or.inl (Or.inr (by simp [h])))))
  have hd := compare_if_eq_any g (0 ≤ i + g.width ∧ i + g.width < (g.cells.length : Int)) ci
    (i + g.width) (fun h => hvalid _ (Or.inl (Or.inr (by simp [h]))))
  have hl := compare_if_eq_any g (i - 1 > 0) ci (i - 1)
    (fun h => hvalid _ (Or.inr (by simp [h])))
  unfold has_matches_cell
  rw [hci, Option.some_bind, hnw, hu, hr, hd, hl]
  simp only [List.any_append]
  generalize (if i - g.width > 0 then [i - g.width] else []).any _ = b1
  generalize (if i + 1 < g.width then [i + 1] else []).any _ = b2
  generalize (if 0 ≤ i + g.width ∧ i + g.width < (g.cells.length : Int) then [i + g.width]
    else []).any _ = b3
  generalize (if i - 1 > 0 then [i - 1] else []).any _ = b4
  cases b1 <;> cases b2 <;> cases b3 <;> cases b4 <;> rfl

/-- C10: on a well-formed grid with an in-range clicked index `i`, every index
in the vector `cells_indexes_to_compare` built by `check_neighbours` lies in
`[0, width*height)` and `check_neighbours` returns without an out-of-range
access; every index that `has_matches` compares a scanned cell `j` with lies
in `[0, width*height)` and `has_matches` returns without an out-of-range
access. -/
theorem C10_neighbour_accesses_in_range (g : grid_data) (i : Int) (hg : WellFormed g)
    (h0 : 0 ≤ i) (hi : i < g.width * g.height) :
    (∃ c, cell_at g i = some c ∧
      ∀ k ∈ cells_indexes_to_compare g c i, 0 ≤ k ∧ k < g.width * g.height) ∧
    (∃ r, check_neighbours g i = some r) ∧
    (∀ j : Int, 0 ≤ j → j < g.width * g.height →
      ∀ k ∈ has_matches_indexes g j, 0 ≤ k ∧ k < g.width * g.height) ∧
    (∃ b, has_matches g = some b) := by
  have hwl := width_le_cells g hg
  have hlen := hg.2.2.1
  have hw := hg.1
  refine ⟨?_, ?_, ?_, ?_⟩
  · obtain ⟨c, hc, _⟩ := wellFormed_cell_at g hg i h0 hi
    refine ⟨c, hc, fun k hk => ?_⟩
    have := (neighbours_iff g hg i h0 hi c hc k).1 hk
    exact ⟨this.1, this.2.1⟩
  · obtain ⟨r, hr, _⟩ := check_neighbours_wellFormed g hg i h0 hi
    exact ⟨r, hr⟩
  · intro j hj0 hj k hk
    unfold has_matches_indexes at hk
    simp only [List.mem_append] at hk
    rw [← hlen]
    rcases hk with ((hk | hk) | hk) | hk <;> split at hk <;> simp at hk <;> omega
  · exact has_matches_loop_isSome g hw hwl _ (fun j hj => List.mem_range.1 hj)

/-- Witness for C10 on the 2 x 2 grid red, red, red, blue with click index 0. -/
theorem C10_neighbour_accesses_in_range_witness :
    ∃ b, has_matches (grid_of 2 2 50 [COLOR_RED, COLOR_RED, COLOR_RED, COLOR_BLUE]) = some b :=
  (C10_neighbour_accesses_in_range
    (grid_of 2 2 50 [COLOR_RED, COLOR_RED, COLOR_RED, COLOR_BLUE]) 0 (by decide) (by decide)
    (by decide)).2.2.2

/-! ## One step of the gravity scan -/

theorem set_cell_spec (g : grid_data) (k : Int) (c c1 : cell_data) (h : cell_at g k = some c) :
    ∃ g1, set_cell g k c1 = some g1 ∧
      g1.width = g.width ∧ g1.height = g.height ∧ g1.size = g.size ∧
      g1.cells.length = g.cells.length ∧
      ∀ j, cell_at g1 j = if j = k then some c1 else cell_at g j := by
  obtain ⟨g1, hg1⟩ := set_cell_isSome g k c c1 h
  exact ⟨g1, hg1, cell_at_set_cell g g1 k c1 hg1⟩

theorem swap_y_pos_spec (g : grid_data) (a b : Int) (ca cb : cell_data) (hab : a ≠ b)
    (ha : cell_at g a = some ca) (hb : cell_at g b = some cb) :
    ∃ g1, swap_y_pos g a b = some g1 ∧
      g1.width = g.width ∧ g1.height = g.height ∧ g1.size = g.size ∧
      g1.cells.length = g.cells.length ∧
      ∀ j, cell_at g1 j =
        if j = a then some { ca with y_pos := cb.y_pos }
        else if j = b then some { cb with y_pos := ca.y_pos } else cell_at g j := by
  obtain ⟨g1, hg1, hw1, hh1, hs1, hl1, hc1⟩ :=
    set_cell_spec g a ca { ca with y_pos := cb.y_pos } ha
  have hb1 : cell_at g1 b = some cb := by
    rw [hc1 b, if_neg (Ne.symm hab), hb]
  obtain ⟨g2, hg2, hw2, hh2, hs2, hl2, hc2⟩ :=
    set_cell_spec g1 b cb { cb with y_pos := ca.y_pos } hb1
  refine ⟨g2, ?_, by omega, by omega, by omega, by omega, ?_⟩
  · simp [swap_y_pos, ha, hb, hg1, hb1, hg2]
  · intro j
    rw [hc2 j, hc1 j]
    by_cases hja : j = a
    · subst hja; simp [hab]
    · simp [hja]

theorem swap_cells_spec (g : grid_data) (a b : Int) (ca cb : cell_data) (hab : a ≠ b)
    (ha : cell_at g a = some ca) (hb : cell_at g b = some cb) :
    ∃ g1, swap_cells g a b = some g1 ∧
      g1.width = g.width ∧ g1.height = g.height ∧ g1.size = g.size ∧
      g1.cells.length = g.cells.length ∧
      ∀ j, cell_at g1 j =
        if j = a then some cb else if j = b then some ca else cell_at g j := by
  obtain ⟨g1, hg1, hw1, hh1, hs1, hl1, hc1⟩ := set_cell_spec g a ca cb ha
  have hb1 : cell_at g1 b = some cb := by
    rw [hc1 b, if_neg (Ne.symm hab), hb]
  obtain ⟨g2, hg2, hw2, hh2, hs2, hl2, hc2⟩ := set_cell_spec g1 b cb ca hb1
  refine ⟨g2, ?_, by omega, by omega, by omega, by omega, ?_⟩
  · simp [swap_cells, ha, hb, hg1, hg2]
  · intro j
    rw [hc2 j, hc1 j]
    by_cases hja : j = a
    · subst hja; simp [hab]
    · simp [hja]

theorem below_in_range (w h i : Int) (hw : 1 ≤ w) (h0 : 0 ≤ i) (hrow : i / w < h - 1) :
    0 ≤ i + w ∧ i + w < w * h ∧ (i + w) % w = i % w ∧ (i + w) / w = i / w + 1 := by
  obtain ⟨hx0, hxw, hy0, hdec⟩ := row_col w i hw h0
  have hle := mul_row_le w (i / w) (h - 2) hw (by omega)
  have e : (h - 2) * w = w * h - 2 * w := by ring
  have hd := div_of_decomp w (i + w) (i % w) (i / w + 1) hx0 hxw (by rw [Int.add_mul]; omega)
  exact ⟨by omega, by omega, hd.2, hd.1⟩

theorem update_cell_step_spec (g : grid_data) (hg : WellFormed g) (hsq : g.height = g.width)
    (i : Int) (h0 : 0 ≤ i) (hi : i < g.width * g.height) :
    ∃ r, update_cell_step g i = some r ∧ WellFormed r ∧
      r.width = g.width ∧ r.height = g.height ∧ r.size = g.size ∧
      r.cells.length = g.cells.length ∧
      ((r = g ∧ ¬ can_fall g i) ∨
       (can_fall g i ∧
          colour_at r i = some COLOR_WHITE ∧ colour_at r (i + g.width) = colour_at g i ∧
          ∀ j, j ≠ i → j ≠ i + g.width → cell_at r j = cell_at g j)) := by
  obtain ⟨c, hc, hx, hy⟩ := wellFormed_cell_at g hg i h0 hi
  have hci : colour_at g i = some c.cell_colour := colour_at_eq g i c hc
  by_cases hrow : i / g.width < g.height - 1
  · obtain ⟨hb0, hbr, hbx, hby⟩ := below_in_range g.width g.height i hg.1 h0 hrow
    obtain ⟨cb, hcb, hxb, hyb⟩ := wellFormed_cell_at g hg (i + g.width) hb0 hbr
    have hcbi : colour_at g (i + g.width) = some cb.cell_colour :=
      colour_at_eq g (i + g.width) cb hcb
    have hyc : c.y_pos < g.height - 1 := by rw [hy]; exact hrow
    by_cases hsw : cb.cell_colour = COLOR_WHITE ∧ c.cell_colour ≠ COLOR_WHITE
    · -- the swap happens
      have hne : i ≠ i + g.width := by have := hg.1; omega
      obtain ⟨g1, hg1, hw1, hh1, hs1, hl1, hc1⟩ :=
        swap_y_pos_spec g i (i + g.width) c cb hne hc hcb
      have h1i : cell_at g1 i = some { c with y_pos := cb.y_pos } := by
        rw [hc1 i]; simp
      have h1b : cell_at g1 (i + g.width) = some { cb with y_pos := c.y_pos } := by
        rw [hc1 (i + g.width)]; simp [Ne.symm hne]
      obtain ⟨g2, hg2, hw2, hh2, hs2, hl2, hc2⟩ :=
        swap_cells_spec g1 i (i + g.width) _ _ hne h1i h1b
      have hcell : ∀ j, cell_at g2 j =
          if j = i then some { cb with y_pos := c.y_pos }
          else if j = i + g.width then some { c with y_pos := cb.y_pos } else cell_at g j := by
        intro j
        rw [hc2 j, hc1 j]
        by_cases hji : j = i
        · simp [hji]
        · by_cases hjb : j = i + g.width
          · simp [hjb]
          · simp [hji, hjb]
      have hstep : update_cell_step g i = some g2 := by
        have hwb : is_white cb = true := (is_white_iff cb).2 hsw.1
        have hwc : is_white c = false := by
          cases hq : is_white c
          · rfl
          · exact absurd ((is_white_iff c).1 hq) hsw.2
        unfold update_cell_step
        rw [hc, Option.some_bind, if_pos hyc, hsq, hcb, Option.some_bind, hwb, hwc]
        simp [hg1, hg2]
      refine ⟨g2, hstep, ?_, by omega, by omega, by omega, by omega, Or.inr ⟨⟨hrow, ?_, ?_⟩, ?_, ?_, ?_⟩⟩
      · apply wellFormed_of_cell_at g2 (by rw [hw2, hw1]; exact hg.1)
          (by rw [hh2, hh1]; exact hg.2.1) (by rw [hl2, hl1, hw2, hw1, hh2, hh1]; exact hg.2.2.1)
        intro k _ _ ck hck
        rw [hcell k] at hck
        rw [hw2, hw1]
        by_cases hki : k = i
        · rw [if_pos hki] at hck
          cases hck
          subst hki
          exact ⟨by show cb.x_pos = _; rw [hxb, hbx], by show c.y_pos = _; exact hy⟩
        · rw [if_neg hki] at hck
          by_cases hkb : k = i + g.width
          · rw [if_pos hkb] at hck
            cases hck
            subst hkb
            exact ⟨by show c.x_pos = _; rw [hx, hbx], by show cb.y_pos = _; exact hyb⟩
          · rw [if_neg hkb] at hck
            exact wellFormed_pos g hg k ck hck
      · rw [hcbi, hsw.1]
      · rw [hci]; simpa using hsw.2
      · rw [colour_at, hcell i]; simp [hsw.1]
      · rw [colour_at, hcell (i + g.width), hci]; simp [Ne.symm hne]
      · intro j hji hjb
        rw [hcell j, if_neg hji, if_neg hjb]
    · -- the colour test fails
      have hstep : update_cell_step g i = some g := by
        have : (is_white cb && !is_white c) = false := by
          cases hq1 : is_white cb <;> cases hq2 : is_white c <;> simp
          exact hsw ⟨(is_white_iff cb).1 hq1, fun h => by
            have := (is_white_iff c).2 h
            rw [hq2] at this
            cases this⟩
        unfold update_cell_step
        rw [hc, Option.some_bind, if_pos hyc, hsq, hcb, Option.some_bind, this]
        simp
      refine ⟨g, hstep, hg, rfl, rfl, rfl, rfl, Or.inl ⟨rfl, ?_⟩⟩
      rintro ⟨_, h1, h2⟩
      rw [hcbi] at h1
      rw [hci] at h2
      exact hsw ⟨by simpa using h1, by simpa using h2⟩
  · -- bottom row
    have hyc : ¬ c.y_pos < g.height - 1 := by rw [hy]; exact hrow
    have hstep : update_cell_step g i = some g := by
      simp [update_cell_step, hc, hyc]
    exact ⟨g, hstep, hg, rfl, rfl, rfl, rfl, Or.inl ⟨rfl, fun h => hrow h.1⟩⟩

/-! ## The gravity scan -/

theorem update_cell_scan_zero (g : grid_data) : update_cell_scan g 0 = some g := rfl

theorem update_cell_scan_succ (g : grid_data) (k : Nat) :
    update_cell_scan g (k + 1) =
      (update_cell_scan g k).bind (fun a => update_cell_step a (k : Int)) := by
  unfold update_cell_scan
  rw [List.range_succ, List.foldlM_append]
  cases List.foldlM (fun g (i : Nat) => update_cell_step g (i : Int)) g (List.range k) with
  | none => rfl
  | some a => simp [List.foldlM_cons, List.foldlM_nil]

/-- Induction along the scan of a well-formed square grid: a property that
holds at the start and is kept by every iteration holds after any number of
iterations, and every intermediate grid is well-formed with the same
dimensions. -/
theorem scan_induction (g : grid_data) (hg : WellFormed g) (hsq : g.height = g.width)
    (P : Nat → grid_data → Prop) (hP0 : P 0 g)
    (hstep : ∀ (k : Nat) (a r : grid_data), k < g.cells.length → WellFormed a →
      a.width = g.width → a.height = g.height → P k a →
      update_cell_step a (k : Int) = some r → P (k + 1) r) :
    ∀ k : Nat, k ≤ g.cells.length → ∃ a, update_cell_scan g k = some a ∧ WellFormed a ∧
      a.width = g.width ∧ a.height = g.height ∧ a.size = g.size ∧
      a.cells.length = g.cells.length ∧ P k a := by
  intro k
  induction k with
  | zero => intro _; exact ⟨g, rfl, hg, rfl, rfl, rfl, rfl, hP0⟩
  | succ k ih =>
    intro hk
    obtain ⟨a, ha, hwa, hw, hh, hs, hl, hPa⟩ := ih (by omega)
    have hkr : ((k : Nat) : Int) < a.width * a.height := by
      rw [← hwa.2.2.1, hl]; exact_mod_cast hk
    obtain ⟨r, hr, hwr, hw2, hh2, hs2, hl2, _⟩ :=
      update_cell_step_spec a hwa (by rw [hh, hw, hsq]) (k : Int) (by omega) hkr
    refine ⟨r, ?_, hwr, by omega, by omega, by omega, by omega,
      hstep k a r (by omega) hwa hw hh hPa hr⟩
    rw [update_cell_scan_succ, ha]
    exact hr

/-- C3: evaluation of `has_matches` on the well-formed 2 x 2 grid whose rows
are red, green and green, blue.  No two orthogonally adjacent cells share a
colour, yet `has_matches` returns true: at index 2 the test `(i - 1) > 0`
holds and the cell is compared with index 1, the last cell of the row above. -/
theorem C3_has_matches_wraparound :
    WellFormed (grid_of 2 2 50 [COLOR_RED, COLOR_GREEN, COLOR_GREEN, COLOR_BLUE]) ∧
    has_matches (grid_of 2 2 50 [COLOR_RED, COLOR_GREEN, COLOR_GREEN, COLOR_BLUE]) = some true ∧
    (∀ i k : Fin 4, adjacent 2 ((i : Nat) : Int) ((k : Nat) : Int) →
      colour_at (grid_of 2 2 50 [COLOR_RED, COLOR_GREEN, COLOR_GREEN, COLOR_BLUE]) ((i : Nat) : Int)
        ≠ colour_at (grid_of 2 2 50 [COLOR_RED, COLOR_GREEN, COLOR_GREEN, COLOR_BLUE])
            ((k : Nat) : Int)) ∧
    ¬ adjacent 2 2 1 ∧
    has_matches_cell (grid_of 2 2 50 [COLOR_RED, COLOR_GREEN, COLOR_GREEN, COLOR_BLUE]) 2 =
      some true := by
  decide

/-- C4, as stated, fails: on the well-formed 3 x 3 grid whose left column reads
red, white, white and whose other cells are white, one pass of
`update_cell_positions` moves the red cell two rows down, so the column reads
white, white, red and not white, red, white. -/
theorem C4_counterexample_two_rows_in_one_pass :
    WellFormed (grid_of 3 3 50 [COLOR_RED, COLOR_WHITE, COLOR_WHITE, COLOR_WHITE, COLOR_WHITE,
      COLOR_WHITE, COLOR_WHITE, COLOR_WHITE, COLOR_WHITE]) ∧
    update_cell_positions (grid_of 3 3 50 [COLOR_RED, COLOR_WHITE, COLOR_WHITE, COLOR_WHITE,
      COLOR_WHITE, COLOR_WHITE, COLOR_WHITE, COLOR_WHITE, COLOR_WHITE]) =
      some (grid_of 3 3 50 [COLOR_WHITE, COLOR_WHITE, COLOR_WHITE, COLOR_WHITE, COLOR_WHITE,
        COLOR_WHITE, COLOR_RED, COLOR_WHITE, COLOR_WHITE]) ∧
    update_cell_positions (grid_of 3 3 50 [COLOR_RED, COLOR_WHITE, COLOR_WHITE, COLOR_WHITE,
      COLOR_WHITE, COLOR_WHITE, COLOR_WHITE, COLOR_WHITE, COLOR_WHITE]) ≠
      some (grid_of 3 3 50 [COLOR_WHITE, COLOR_WHITE, COLOR_WHITE, COLOR_RED, COLOR_WHITE,
        COLOR_WHITE, COLOR_WHITE, COLOR_WHITE, COLOR_WHITE]) := by
  decide

/-- C4, amended: on a well-formed square grid every iteration of the scan of
`update_cell_positions` (the pass is the scan over all indexes in order)
either changes nothing or moves the non-white cell at the scanned index `k`
exactly one row down into the cell directly below it, index `k + width`,
which was white at that moment, and leaves every other cell as it was.  The
scan reaches `k + width` later in the same pass, so a cell can be moved
again: the column red, white, white of a 3 x 3 grid reads white, white, red
after one pass. -/
theorem C4_scan_step_moves_one_row (g : grid_data) (hg : WellFormed g)
    (hsq : g.width = g.height) (k : Nat) (hk : k < g.cells.length) :
    (∃ a b, update_cell_scan g k = some a ∧ update_cell_scan g (k + 1) = some b ∧
      (b = a ∨
        (((k : Nat) : Int) / g.width < g.height - 1 ∧
          colour_at a (k : Int) ≠ some COLOR_WHITE ∧
          colour_at a ((k : Int) + g.width) = some COLOR_WHITE ∧
          colour_at b (k : Int) = some COLOR_WHITE ∧
          colour_at b ((k : Int) + g.width) = colour_at a (k : Int) ∧
          ∀ j, j ≠ (k : Int) → j ≠ (k : Int) + g.width → cell_at b j = cell_at a j))) ∧
    update_cell_positions g = update_cell_scan g g.cells.length ∧
    update_cell_positions (grid_of 3 3 50 [COLOR_RED, COLOR_WHITE, COLOR_WHITE, COLOR_WHITE,
      COLOR_WHITE, COLOR_WHITE, COLOR_WHITE, COLOR_WHITE, COLOR_WHITE]) =
      some (grid_of 3 3 50 [COLOR_WHITE, COLOR_WHITE, COLOR_WHITE, COLOR_WHITE, COLOR_WHITE,
        COLOR_WHITE, COLOR_RED, COLOR_WHITE, COLOR_WHITE]) := by
  refine ⟨?_, rfl, by decide⟩
  obtain ⟨a, ha, hwa, hw, hh, hs, hl, _⟩ :=
    scan_induction g hg hsq.symm (fun _ _ => True) trivial
      (fun _ _ _ _ _ _ _ _ _ => trivial) k (by omega)
  have hkr : ((k : Nat) : Int) < a.width * a.height := by
    rw [← hwa.2.2.1, hl]; exact_mod_cast hk
  obtain ⟨b, hb, _, _, _, _, _, hcase⟩ :=
    update_cell_step_spec a hwa (by rw [hh, hw, hsq]) (k : Int) (by omega) hkr
  refine ⟨a, b, ha, ?_, ?_⟩
  · rw [update_cell_scan_succ, ha]; exact hb
  · rcases hcase with ⟨hba, _⟩ | ⟨⟨h1, h2, h3⟩, h4, h5, h6⟩
    · exact Or.inl hba
    · right
      rw [hw, hh] at h1
      rw [hw] at h2 h5 h6
      exact ⟨h1, h3, h2, h4, h5, h6⟩

/-- Witness for C4 (amended): the first iteration on the 3 x 3 grid whose left
column reads red, white, white. -/
theorem C4_scan_step_moves_one_row_witness :
    ∃ a b,
      update_cell_scan (grid_of 3 3 50 [COLOR_RED, COLOR_WHITE, COLOR_WHITE, COLOR_WHITE,
        COLOR_WHITE, COLOR_WHITE, COLOR_WHITE, COLOR_WHITE, COLOR_WHITE]) 0 = some a ∧
      update_cell_scan (grid_of 3 3 50 [COLOR_RED, COLOR_WHITE, COLOR_WHITE, COLOR_WHITE,
        COLOR_WHITE, COLOR_WHITE, COLOR_WHITE, COLOR_WHITE, COLOR_WHITE]) (0 + 1) = some b ∧
      (b = a ∨
        (((0 : Nat) : Int) / 3 < 3 - 1 ∧
          colour_at a ((0 : Nat) : Int) ≠ some COLOR_WHITE ∧
          colour_at a (((0 : Nat) : Int) + 3) = some COLOR_WHITE ∧
          colour_at b ((0 : Nat) : Int) = some COLOR_WHITE ∧
          colour_at b (((0 : Nat) : Int) + 3) = colour_at a ((0 : Nat) : Int) ∧
          ∀ j, j ≠ ((0 : Nat) : Int) → j ≠ ((0 : Nat) : Int) + 3 →
            cell_at b j = cell_at a j)) :=
  (C4_scan_step_moves_one_row (grid_of 3 3 50 [COLOR_RED, COLOR_WHITE, COLOR_WHITE, COLOR_WHITE,
      COLOR_WHITE, COLOR_WHITE, COLOR_WHITE, COLOR_WHITE, COLOR_WHITE]) (by decide) (by decide)
      0 (by decide)).1

/-! ## Fixed points of the pass -/

theorem scan_unchanged_before (g : grid_data) (hg : WellFormed g) (hsq : g.height = g.width)
    (m : Nat) (hm : m ≤ g.cells.length) (hnb : ∀ j : Nat, j < m → ¬ can_fall g (j : Int)) :
    update_cell_scan g m = some g := by
  obtain ⟨a, ha, _, _, _, _, _, hP⟩ :=
    scan_induction g hg hsq (fun k a => k ≤ m → a = g) (fun _ => rfl)
      (fun k a r hk hwa hw hh hPa hr hkm => by
        have hag : a = g := hPa (by omega)
        subst hag
        have hkr : ((k : Nat) : Int) < a.width * a.height := by
          rw [← hg.2.2.1]; exact_mod_cast hk
        obtain ⟨r1, hr1, _, _, _, _, _, hcase⟩ :=
          update_cell_step_spec a hg hsq (k : Int) (by omega) hkr
        rw [hr] at hr1
        cases hr1
        rcases hcase with ⟨h, _⟩ | ⟨hbad, _⟩
        · exact h
        · exact absurd hbad (hnb k (by omega)))
      m hm
  rw [ha, hP (le_refl m)]

theorem scan_whitens_first (g : grid_data) (hg : WellFormed g) (hsq : g.height = g.width)
    (m : Nat) (hm : m < g.cells.length) (hbad : can_fall g (m : Int))
    (hnb : ∀ j : Nat, j < m → ¬ can_fall g (j : Int)) :
    ∃ a, update_cell_positions g = some a ∧ colour_at a (m : Int) = some COLOR_WHITE := by
  obtain ⟨a, ha, _, _, _, _, _, hP⟩ :=
    scan_induction g hg hsq
      (fun k a => (k ≤ m → a = g) ∧ (m + 1 ≤ k → colour_at a (m : Int) = some COLOR_WHITE))
      ⟨fun _ => rfl, fun h => by omega⟩
      (fun k a r hk hwa hw hh hPa hr => by
        have hkr : ((k : Nat) : Int) < a.width * a.height := by
          rw [hw, hh, ← hg.2.2.1]; exact_mod_cast hk
        obtain ⟨r1, hr1, _, _, _, _, _, hcase⟩ :=
          update_cell_step_spec a hwa (by rw [hh, hw, hsq]) (k : Int) (by omega) hkr
        rw [hr] at hr1
        cases hr1
        refine ⟨fun hkm => ?_, fun hmk => ?_⟩
        · have hag : a = g := hPa.1 (by omega)
          subst hag
          rcases hcase with ⟨h, _⟩ | ⟨hb, _⟩
          · exact h
          · exact absurd hb (hnb k (by omega))
        · by_cases hkm : k = m
          · subst hkm
            have hag : a = g := hPa.1 (le_refl k)
            subst hag
            rcases hcase with ⟨_, h⟩ | ⟨_, h, _⟩
            · exact absurd hbad h
            · exact h
          · have hwhite := hPa.2 (by omega)
            rcases hcase with ⟨h, _⟩ | ⟨_, _, _, h⟩
            · rw [h]; exact hwhite
            · have hw1 : 1 ≤ a.width := hwa.1
              rw [colour_at, h (m : Int) (by omega) (by omega)]
              exact hwhite)
      g.cells.length (le_refl _)
  exact ⟨a, ha, hP.2 (by omega)⟩

theorem scan_keeps_bottom (g : grid_data) (hg : WellFormed g) (hsq : g.height = g.width)
    (i : Int) (hrow : i / g.width = g.height - 1) (hcol : colour_at g i ≠ some COLOR_WHITE) :
    ∃ a, update_cell_positions g = some a ∧ cell_at a i = cell_at g i := by
  obtain ⟨a, ha, _, _, _, _, _, hP⟩ :=
    scan_induction g hg hsq (fun _ a => cell_at a i = cell_at g i) rfl
      (fun k a r hk hwa hw hh hPa hr => by
        have hkr : ((k : Nat) : Int) < a.width * a.height := by
          rw [hw, hh, ← hg.2.2.1]; exact_mod_cast hk
        obtain ⟨r1, hr1, _, _, _, _, _, hcase⟩ :=
          update_cell_step_spec a hwa (by rw [hh, hw, hsq]) (k : Int) (by omega) hkr
        rw [hr] at hr1
        cases hr1
        rcases hcase with ⟨h, _⟩ | ⟨⟨hkrow, hbelow, _⟩, _, _, h⟩
        · show cell_at r i = cell_at g i
          rw [h]; exact hPa
        · have hne1 : i ≠ (k : Int) := by
            intro hik
            rw [hik, ← hw, ← hh] at hrow
            omega
          have hPa1 : cell_at a i = cell_at g i := hPa
          have hne2 : i ≠ (k : Int) + a.width := by
            intro hik
            apply hcol
            rw [colour_at, ← hPa1, ← colour_at, hik]
            exact hbelow
          show cell_at r i = cell_at g i
          rw [h i hne1 hne2]
          exact hPa)
      g.cells.length (le_refl _)
  exact ⟨a, ha, hP⟩

/-- C5: on a well-formed square grid, (1) if one pass of
`update_cell_positions` returns the grid itself, then no cell above the bottom
row is non-white with a white cell directly below it (index `i + width`);
(2) the iteration of the scan at a bottom-row index changes nothing, and a
non-white cell of the bottom row is the same cell after the pass. -/
theorem C5_fixed_point_is_compacted (g : grid_data) (hg : WellFormed g)
    (hsq : g.width = g.height) :
    (update_cell_positions g = some g →
      ∀ i : Int, 0 ≤ i → i < g.width * g.height → i / g.width < g.height - 1 →
        colour_at g i ≠ some COLOR_WHITE → colour_at g (i + g.width) ≠ some COLOR_WHITE) ∧
    (∀ k : Nat, k < g.cells.length → ((k : Nat) : Int) / g.width = g.height - 1 →
      update_cell_scan g (k + 1) = update_cell_scan g k) ∧
    (∃ r, update_cell_positions g = some r ∧
      ∀ i : Int, 0 ≤ i → i < g.width * g.height → i / g.width = g.height - 1 →
        colour_at g i ≠ some COLOR_WHITE → cell_at r i = cell_at g i) := by
  refine ⟨?_, ?_, ?_⟩
  · intro hfix
    have key : ∀ m : Nat, m < g.cells.length → ¬ can_fall g (m : Int) := by
      intro m
      induction m using Nat.strong_induction_on with
      | _ m ih =>
        intro hm hbad
        obtain ⟨a, ha, hwhite⟩ := scan_whitens_first g hg hsq.symm m hm hbad
          (fun j hj => ih j hj (by omega))
        rw [hfix] at ha
        cases ha
        exact hbad.2.2 hwhite
    intro i h0 hi hrow hcol hbelow
    obtain ⟨n, rfl⟩ := Int.eq_ofNat_of_zero_le h0
    have hn : n < g.cells.length := by
      have : (n : Int) < (g.cells.length : Int) := by rw [hg.2.2.1]; exact hi
      exact_mod_cast this
    exact key n hn ⟨hrow, hbelow, hcol⟩
  · intro k hk hrow
    obtain ⟨a, ha, hwa, hw, hh, _, hl, _⟩ :=
      scan_induction g hg hsq.symm (fun _ _ => True) trivial
        (fun _ _ _ _ _ _ _ _ _ => trivial) k (by omega)
    have hkr : ((k : Nat) : Int) < a.width * a.height := by
      rw [hw, hh, ← hg.2.2.1]; exact_mod_cast hk
    obtain ⟨b, hb, _, _, _, _, _, hcase⟩ :=
      update_cell_step_spec a hwa (by rw [hh, hw, hsq]) (k : Int) (by omega) hkr
    rw [update_cell_scan_succ, ha, Option.some_bind, hb]
    rcases hcase with ⟨h, _⟩ | ⟨⟨h, _⟩, _⟩
    · rw [h]
    · rw [hw, hh] at h
      omega
  · obtain ⟨r, hr, _⟩ :=
      scan_induction g hg hsq.symm (fun _ _ => True) trivial
        (fun _ _ _ _ _ _ _ _ _ => trivial) g.cells.length (le_refl _)
    refine ⟨r, hr, ?_⟩
    intro i _ _ hrow hcol
    obtain ⟨a, ha, hcell⟩ := scan_keeps_bottom g hg hsq.symm i hrow hcol
    have hra : update_cell_positions g = some r := hr
    rw [hra] at ha
    cases ha
    exact hcell

/-- Witness for C5 on the 2 x 2 grid red, white over red, green: the pass
returns the grid itself, and its bottom row is unchanged by the pass. -/
theorem C5_fixed_point_is_compacted_witness :
    update_cell_positions (grid_of 2 2 50 [COLOR_RED, COLOR_WHITE, COLOR_RED, COLOR_GREEN]) =
      some (grid_of 2 2 50 [COLOR_RED, COLOR_WHITE, COLOR_RED, COLOR_GREEN]) ∧
    (∃ r, update_cell_positions
        (grid_of 2 2 50 [COLOR_RED, COLOR_WHITE, COLOR_RED, COLOR_GREEN]) = some r ∧
      ∀ i : Int, 0 ≤ i → i < 2 * 2 → i / 2 = 2 - 1 →
        colour_at (grid_of 2 2 50 [COLOR_RED, COLOR_WHITE, COLOR_RED, COLOR_GREEN]) i ≠
          some COLOR_WHITE →
        cell_at r i =
          cell_at (grid_of 2 2 50 [COLOR_RED, COLOR_WHITE, COLOR_RED, COLOR_GREEN]) i) :=
  ⟨by decide,
   (C5_fixed_point_is_compacted
    (grid_of 2 2 50 [COLOR_RED, COLOR_WHITE, COLOR_RED, COLOR_GREEN])
    (by decide) (by decide)).2.2⟩


/-! ## Terminal detection on special grids -/

/-- C11: evaluation of `has_matches` on the well-formed 2 x 2 checkerboard of
red and green (red where column + row is even).  It returns true, not false:
at index 2 the test `(i - 1) > 0` holds and the green cell at the start of
row 1 is compared with the green cell at the end of row 0. -/
theorem C11_checkerboard_has_matches :
    WellFormed (grid_of 2 2 50 [COLOR_RED, COLOR_GREEN, COLOR_GREEN, COLOR_RED]) ∧
    (∀ k : Fin 4,
      colour_at (grid_of 2 2 50 [COLOR_RED, COLOR_GREEN, COLOR_GREEN, COLOR_RED])
          ((k : Nat) : Int) =
        some (if (((k : Nat) : Int) % 2 + ((k : Nat) : Int) / 2) % 2 = 0 then COLOR_RED
          else COLOR_GREEN)) ∧
    has_matches (grid_of 2 2 50 [COLOR_RED, COLOR_GREEN, COLOR_GREEN, COLOR_RED]) = some true ∧
    has_matches_cell (grid_of 2 2 50 [COLOR_RED, COLOR_GREEN, COLOR_GREEN, COLOR_RED]) 2 =
      some true ∧
    ¬ adjacent 2 2 1 := by
  decide

theorem has_matches_loop_all_white (g : grid_data)
    (hwhite : ∀ c ∈ g.cells, c.cell_colour = COLOR_WHITE) (l : List Nat)
    (hl : ∀ i ∈ l, i < g.cells.length) : has_matches_loop g l = some false := by
  induction l with
  | nil => rfl
  | cons i rest ih =>
    have hi : i < g.cells.length := hl i (by simp)
    have hc : cell_at g (i : Int) = some (g.cells.get ⟨i, hi⟩) := by
      rw [cell_at_natCast]; simp [List.getElem?_eq_getElem hi]
    have hw : is_white (g.cells.get ⟨i, hi⟩) = true :=
      (is_white_iff _).2 (hwhite _ (List.get_mem _ _ _))
    have hcell : has_matches_cell g (i : Int) = some false := by
      unfold has_matches_cell
      rw [hc, Option.some_bind, if_pos hw]
    unfold has_matches_loop
    rw [hcell, Option.some_bind]
    simpa using ih (fun j hj => hl j (List.mem_cons_of_mem _ hj))

/-- C12: on every grid all of whose cells are white `has_matches` returns
false, so the terminal check of the game loop writes "You won!" and runs
`assign_colours`; and on the well-formed 2-wide, 1-high grid with both cells
red, `check_neighbours` at index 0 makes both cells white and `has_matches`
then returns false. -/
theorem C12_all_white_has_no_matches (g : grid_data) (rnd : Nat → Int)
    (hwhite : ∀ c ∈ g.cells, c.cell_colour = COLOR_WHITE) :
    has_matches g = some false ∧
    terminal_check g rnd = some ((assign_colours g rnd).1, "You won!" :: (assign_colours g rnd).2) ∧
    WellFormed (grid_of 2 1 50 [COLOR_RED, COLOR_RED]) ∧
    check_neighbours (grid_of 2 1 50 [COLOR_RED, COLOR_RED]) 0 =
      some (grid_of 2 1 50 [COLOR_WHITE, COLOR_WHITE]) ∧
    has_matches (grid_of 2 1 50 [COLOR_WHITE, COLOR_WHITE]) = some false := by
  have h : has_matches g = some false :=
    has_matches_loop_all_white g hwhite _ (fun j hj => List.mem_range.1 hj)
  refine ⟨h, ?_, by decide, by decide, by decide⟩
  unfold terminal_check
  rw [h]
  rfl

/-- Witness for C12: the 2-wide, 1-high grid with both cells white. -/
theorem C12_all_white_has_no_matches_witness :
    has_matches (grid_of 2 1 50 [COLOR_WHITE, COLOR_WHITE]) = some false :=
  (C12_all_white_has_no_matches (grid_of 2 1 50 [COLOR_WHITE, COLOR_WHITE]) (fun _ => 0)
    (by decide)).1

/-! ## The column red, red, blue -/

/-- C13, as stated, fails: on the well-formed grid of width 1 and height 3
coloured red, red, blue, `check_neighbours` at index 0 gives white, white,
blue, but the pass of `update_cell_positions` on that grid does not return a
grid at all, let alone one with blue in row 1: at index 0 it reads
`cells[0 + height] = cells[3]`, which is out of range. -/
theorem C13_counterexample_pass_on_column :
    WellFormed (grid_of 1 3 50 [COLOR_RED, COLOR_RED, COLOR_BLUE]) ∧
    check_neighbours (grid_of 1 3 50 [COLOR_RED, COLOR_RED, COLOR_BLUE]) 0 =
      some (grid_of 1 3 50 [COLOR_WHITE, COLOR_WHITE, COLOR_BLUE]) ∧
    update_cell_positions (grid_of 1 3 50 [COLOR_WHITE, COLOR_WHITE, COLOR_BLUE]) = none ∧
    update_cell_positions (grid_of 1 3 50 [COLOR_WHITE, COLOR_WHITE, COLOR_BLUE]) ≠
      some (grid_of 1 3 50 [COLOR_WHITE, COLOR_BLUE, COLOR_WHITE]) := by
  decide

/-- C13, amended: on the well-formed grid of width 1 and height 3 coloured
red, red, blue, `check_neighbours` at index 0 makes indexes 0 and 1 white and
leaves index 2 blue.  The blue cell is in the bottom row and gravity does not
move it: the scan iteration at index 2 changes nothing, and when the column
white, white, blue is the left column of a well-formed 3 x 3 grid whose other
cells are white, one pass of `update_cell_positions` returns the same grid
(rows 0 and 1 white, row 2 blue). -/
theorem C13_click_then_settle_column :
    check_neighbours (grid_of 1 3 50 [COLOR_RED, COLOR_RED, COLOR_BLUE]) 0 =
      some (grid_of 1 3 50 [COLOR_WHITE, COLOR_WHITE, COLOR_BLUE]) ∧
    update_cell_step (grid_of 1 3 50 [COLOR_WHITE, COLOR_WHITE, COLOR_BLUE]) 2 =
      some (grid_of 1 3 50 [COLOR_WHITE, COLOR_WHITE, COLOR_BLUE]) ∧
    WellFormed (grid_of 3 3 50 [COLOR_WHITE, COLOR_WHITE, COLOR_WHITE, COLOR_WHITE, COLOR_WHITE,
      COLOR_WHITE, COLOR_BLUE, COLOR_WHITE, COLOR_WHITE]) ∧
    update_cell_positions (grid_of 3 3 50 [COLOR_WHITE, COLOR_WHITE, COLOR_WHITE, COLOR_WHITE,
      COLOR_WHITE, COLOR_WHITE, COLOR_BLUE, COLOR_WHITE, COLOR_WHITE]) =
      some (grid_of 3 3 50 [COLOR_WHITE, COLOR_WHITE, COLOR_WHITE, COLOR_WHITE, COLOR_WHITE,
        COLOR_WHITE, COLOR_BLUE, COLOR_WHITE, COLOR_WHITE]) := by
  decide

/-! ## The pass on grids that are not square -/

/-- C16: evaluation of `update_cell_positions` on two well-formed grids that
are not square.  On the grid of width 1 and height 3 coloured red, white,
white the first iteration reads `cells[0 + height] = cells[3]`, out of range.
On the grid of width 3 and height 2 with rows red, green, white and blue,
green, green the first iteration tests `cells[0 + height] = cells[2]`, the
white cell two columns to the right, and then swaps cell 0 with
`cells[0 + width] = cells[3]`, the blue cell directly below, which is not
white: the pass returns blue, green, white over red, green, green. -/
theorem C16_pass_tests_wrong_cell :
    WellFormed (grid_of 1 3 50 [COLOR_RED, COLOR_WHITE, COLOR_WHITE]) ∧
    update_cell_step (grid_of 1 3 50 [COLOR_RED, COLOR_WHITE, COLOR_WHITE]) 0 = none ∧
    update_cell_positions (grid_of 1 3 50 [COLOR_RED, COLOR_WHITE, COLOR_WHITE]) = none ∧
    WellFormed (grid_of 3 2 50 [COLOR_RED, COLOR_GREEN, COLOR_WHITE, COLOR_BLUE, COLOR_GREEN,
      COLOR_GREEN]) ∧
    ¬ can_fall (grid_of 3 2 50 [COLOR_RED, COLOR_GREEN, COLOR_WHITE, COLOR_BLUE, COLOR_GREEN,
      COLOR_GREEN]) 0 ∧
    update_cell_step (grid_of 3 2 50 [COLOR_RED, COLOR_GREEN, COLOR_WHITE, COLOR_BLUE,
      COLOR_GREEN, COLOR_GREEN]) 0 =
      some (grid_of 3 2 50 [COLOR_BLUE, COLOR_GREEN, COLOR_WHITE, COLOR_RED, COLOR_GREEN,
        COLOR_GREEN]) ∧
    update_cell_positions (grid_of 3 2 50 [COLOR_RED, COLOR_GREEN, COLOR_WHITE, COLOR_BLUE,
      COLOR_GREEN, COLOR_GREEN]) =
      some (grid_of 3 2 50 [COLOR_BLUE, COLOR_GREEN, COLOR_WHITE, COLOR_RED, COLOR_GREEN,
        COLOR_GREEN]) := by
  decide

/-! ## Clicking a white cell -/

theorem grid_ext (a b : grid_data) (hw : a.width = b.width) (hh : a.height = b.height)
    (hs : a.size = b.size) (hc : ∀ j : Int, cell_at a j = cell_at b j) : a = b := by
  have hcells : a.cells = b.cells := by
    apply List.ext_getElem?
    intro n
    have := hc (n : Int)
    rwa [cell_at_natCast, cell_at_natCast] at this
  rcases a with ⟨ac, ah, aw, as⟩
  rcases b with ⟨bc, bh, bw, bs⟩
  simp only at hw hh hs hcells
  subst hw hh hs hcells
  rfl

theorem whiten_of_white (c : cell_data) (h : c.cell_colour = COLOR_WHITE) : whiten c = c := by
  rcases c with ⟨x, y, col⟩
  simp only at h
  subst h
  rfl

/-- C19: on a well-formed grid, `check_neighbours` at an in-range index whose
cell is white returns the very same grid: white neighbours are treated as
matches, but writing white over white changes no colour and no position. -/
theorem C19_check_neighbours_white_origin (g : grid_data) (i : Int) (hg : WellFormed g)
    (h0 : 0 ≤ i) (hi : i < g.width * g.height) (hwhite : colour_at g i = some COLOR_WHITE) :
    check_neighbours g i = some g := by
  obtain ⟨c, r, hc, hr, hw, hh, hs, _, ha, hb, hcc, hd⟩ := check_neighbours_spec g hg i h0 hi
  have hcw : c.cell_colour = COLOR_WHITE := by
    rw [colour_at_eq g i c hc] at hwhite
    exact Option.some.inj hwhite
  rw [hr]
  congr 1
  apply grid_ext r g hw hh hs
  intro j
  by_cases hji : j = i
  · subst hji
    by_cases hex : ∃ m, orthogonal_neighbour g.width g.height j m ∧
        colour_at g m = some c.cell_colour
    · rw [hcc hex, hc, whiten_of_white c hcw]
    · rw [hd (fun m hm hcol => hex ⟨m, hm, hcol⟩)]
  · by_cases hn : orthogonal_neighbour g.width g.height i j
    · rw [hb j hn]
      split
      · rename_i hcol
        obtain ⟨cj, hcj, _⟩ := wellFormed_cell_at g hg j hn.1 hn.2.1
        rw [colour_at_eq g j cj hcj, hcw] at hcol
        rw [hcj]
        simp [whiten_of_white cj (Option.some.inj hcol)]
      · rfl
    · exact ha j hji hn

/-- Witness for C19: clicking the white cell at index 0 of the 2 x 2 grid
white, white, red, blue. -/
theorem C19_check_neighbours_white_origin_witness :
    check_neighbours (grid_of 2 2 50 [COLOR_WHITE, COLOR_WHITE, COLOR_RED, COLOR_BLUE]) 0 =
      some (grid_of 2 2 50 [COLOR_WHITE, COLOR_WHITE, COLOR_RED, COLOR_BLUE]) :=
  C19_check_neighbours_white_origin
    (grid_of 2 2 50 [COLOR_WHITE, COLOR_WHITE, COLOR_RED, COLOR_BLUE]) 0 (by decide) (by decide)
    (by decide) (by decide)

/-! ## `has_matches` finds every adjacent pair -/

theorem has_matches_indexes_valid (g : grid_data) (hg : WellFormed g) (j : Int) (hj0 : 0 ≤ j)
    (hj : j < g.width * g.height) :
    ∀ k ∈ has_matches_indexes g j, ∃ c, cell_at g k = some c := by
  intro k hk
  have hwl := width_le_cells g hg
  have hlen := hg.2.2.1
  have hw := hg.1
  have hr : 0 ≤ k ∧ k < (g.cells.length : Int) := by
    unfold has_matches_indexes at hk
    simp only [List.mem_append] at hk
    rcases hk with ((hk | hk) | hk) | hk <;> split at hk <;> simp at hk <;> omega
  exact cell_at_isSome g k hr.1 hr.2

theorem has_matches_cell_true (g : grid_data) (hg : WellFormed g) (j k : Int) (cj ck : cell_data)
    (hj0 : 0 ≤ j) (hj : j < g.width * g.height) (hcj : cell_at g j = some cj)
    (hck : cell_at g k = some ck) (hnw : cj.cell_colour ≠ COLOR_WHITE)
    (hsame : cj.cell_colour = ck.cell_colour) (hmem : k ∈ has_matches_indexes g j) :
    has_matches_cell g j = some true := by
  have hwhite : is_white cj = false := by
    cases hq : is_white cj
    · rfl
    · exact absurd ((is_white_iff cj).1 hq) hnw
  rw [has_matches_cell_eq_any g j cj hcj hwhite (has_matches_indexes_valid g hg j hj0 hj)]
  congr 1
  rw [List.any_eq_true]
  exact ⟨k, hmem, by simp [hck, (same_colour_iff cj ck).2 hsame]⟩

theorem has_matches_loop_true (g : grid_data) (hg : WellFormed g) (j : Nat)
    (hj : has_matches_cell g (j : Int) = some true) (l : List Nat)
    (hl : ∀ i ∈ l, i < g.cells.length) (hmem : j ∈ l) : has_matches_loop g l = some true := by
  induction l with
  | nil => simp at hmem
  | cons i rest ih =>
    obtain ⟨b, hb⟩ := has_matches_cell_isSome g hg.1 (width_le_cells g hg) (i : Int) (by omega)
      (by exact_mod_cast hl i (by simp))
    unfold has_matches_loop
    rw [hb, Option.some_bind]
    cases b
    · have hne : j ≠ i := by
        intro h
        subst h
        rw [hj] at hb
        cases hb
      have hjr : j ∈ rest := by
        rcases List.mem_cons.1 hmem with h | h
        · exact absurd h hne
        · exact h
      simpa using ih (fun x hx => hl x (List.mem_cons_of_mem _ hx)) hjr
    · rfl

theorem has_matches_of_scan_index (g : grid_data) (hg : WellFormed g) (j k : Int) (cj ck : cell_data)
    (hj0 : 0 ≤ j) (hj : j < g.width * g.height) (hcj : cell_at g j = some cj)
    (hck : cell_at g k = some ck) (hnw : cj.cell_colour ≠ COLOR_WHITE)
    (hsame : cj.cell_colour = ck.cell_colour) (hmem : k ∈ has_matches_indexes g j) :
    has_matches g = some true := by
  have hcell := has_matches_cell_true g hg j k cj ck hj0 hj hcj hck hnw hsame hmem
  obtain ⟨n, rfl⟩ := Int.eq_ofNat_of_zero_le hj0
  have hn : n < g.cells.length := by
    have : (n : Int) < (g.cells.length : Int) := by rw [hg.2.2.1]; exact hj
    exact_mod_cast this
  exact has_matches_loop_true g hg n hcell _ (fun i hi => List.mem_range.1 hi)
    (List.mem_range.2 hn)

/-- Two cells side by side in one row, the left one at index `a`. -/
theorem has_matches_of_row_pair (g : grid_data) (hg : WellFormed g) (a : Int) (ca cb : cell_data)
    (ha0 : 0 ≤ a) (hb : a + 1 < g.width * g.height) (hrow : (a + 1) / g.width = a / g.width)
    (hca : cell_at g a = some ca) (hcb : cell_at g (a + 1) = some cb)
    (hnw : ca.cell_colour ≠ COLOR_WHITE) (hsame : ca.cell_colour = cb.cell_colour) :
    has_matches g = some true := by
  by_cases h1 : a = 0
  · subst h1
    have hw2 : (0 : Int) + 1 < g.width := by
      have hw := hg.1
      by_contra hcon
      have hw1 : g.width = 1 := by omega
      rw [hw1] at hrow
      simp at hrow
    apply has_matches_of_scan_index g hg 0 (0 + 1) ca cb (by omega) (by omega) hca hcb hnw hsame
    unfold has_matches_indexes
    simp only [List.mem_append]
    left; left; right
    rw [if_pos hw2]; simp
  · apply has_matches_of_scan_index g hg (a + 1) a cb ca (by omega) hb hcb hca
      (by rw [← hsame]; exact hnw) hsame.symm
    unfold has_matches_indexes
    simp only [List.mem_append]
    right
    rw [if_pos (by omega)]; simp

/-- Two cells one above the other, the upper one at index `a`. -/
theorem has_matches_of_column_pair (g : grid_data) (hg : WellFormed g) (a : Int) (ca cb : cell_data)
    (ha0 : 0 ≤ a) (hb : a + g.width < g.width * g.height)
    (hca : cell_at g a = some ca) (hcb : cell_at g (a + g.width) = some cb)
    (hnw : ca.cell_colour ≠ COLOR_WHITE) (hsame : ca.cell_colour = cb.cell_colour) :
    has_matches g = some true := by
  have hw := hg.1
  apply has_matches_of_scan_index g hg a (a + g.width) ca cb ha0 (by omega) hca hcb hnw hsame
  unfold has_matches_indexes
  simp only [List.mem_append]
  left; right
  rw [if_pos ⟨by omega, by rw [hg.2.2.1]; exact hb⟩]; simp

/-- C15: on a well-formed grid, if two orthogonally adjacent cells (same row
and columns differing by one, or same column and rows differing by one) are
both non-white and have the same colour, then `has_matches` returns true; so
it returns false only when no such pair exists. -/
theorem C15_has_matches_finds_adjacent_pair (g : grid_data) (hg : WellFormed g) (i k : Int)
    (hi0 : 0 ≤ i) (hi : i < g.width * g.height) (hk0 : 0 ≤ k) (hk : k < g.width * g.height)
    (hadj : adjacent g.width i k) (hcol : colour_at g i = colour_at g k)
    (hnw : colour_at g i ≠ some COLOR_WHITE) :
    has_matches g = some true ∧
    (has_matches g = some false →
      ¬ ∃ a b : Int, 0 ≤ a ∧ a < g.width * g.height ∧ 0 ≤ b ∧ b < g.width * g.height ∧
        adjacent g.width a b ∧ colour_at g a = colour_at g b ∧
        colour_at g a ≠ some COLOR_WHITE) := by
  have key : ∀ i k : Int, 0 ≤ i → i < g.width * g.height → 0 ≤ k → k < g.width * g.height →
      adjacent g.width i k → colour_at g i = colour_at g k →
      colour_at g i ≠ some COLOR_WHITE → has_matches g = some true := by
    intro i k hi0 hi hk0 hk hadj hcol hnw
    have hw := hg.1
    obtain ⟨ci, hci, _⟩ := wellFormed_cell_at g hg i hi0 hi
    obtain ⟨ck, hck, _⟩ := wellFormed_cell_at g hg k hk0 hk
    rw [colour_at_eq g i ci hci, colour_at_eq g k ck hck] at hcol
    rw [colour_at_eq g i ci hci] at hnw
    have hsame : ci.cell_colour = ck.cell_colour := Option.some.inj hcol
    have hnwi : ci.cell_colour ≠ COLOR_WHITE := fun h => hnw (by rw [h])
    have hnwk : ck.cell_colour ≠ COLOR_WHITE := by rw [← hsame]; exact hnwi
    obtain ⟨_, _, _, hdi⟩ := row_col g.width i hw hi0
    obtain ⟨_, _, _, hdk⟩ := row_col g.width k hw hk0
    rcases hadj with ⟨hrow, hc | hc⟩ | ⟨hc, hrow | hrow⟩
    · -- same row, `i` right of `k`
      have hik : i = k + 1 := by rw [hrow] at hdi; omega
      subst hik
      exact has_matches_of_row_pair g hg k ck ci hk0 hi hrow hck hci hnwk hsame.symm
    · -- same row, `k` right of `i`
      have hki : k = i + 1 := by rw [hrow] at hdi; omega
      subst hki
      exact has_matches_of_row_pair g hg i ci ck hi0 hk hrow.symm hci hck hnwi hsame
    · -- same column, `i` below `k`
      have hik : i = k + g.width := by
        rw [hrow, Int.add_mul] at hdi
        omega
      subst hik
      exact has_matches_of_column_pair g hg k ck ci hk0 hi hck hci hnwk hsame.symm
    · -- same column, `k` below `i`
      have hki : k = i + g.width := by
        rw [hrow, Int.add_mul] at hdk
        omega
      subst hki
      exact has_matches_of_column_pair g hg i ci ck hi0 hk hci hck hnwi hsame
  refine ⟨key i k hi0 hi hk0 hk hadj hcol hnw, ?_⟩
  intro hfalse
  rintro ⟨a, b, ha0, ha, hb0, hb, hab, hc, hn⟩
  have := key a b ha0 ha hb0 hb hab hc hn
  rw [hfalse] at this
  cases this

/-- Witness for C15: the red pair at indexes 2 and 3 (row 1) of the 2 x 2 grid
green, blue, red, red. -/
theorem C15_has_matches_finds_adjacent_pair_witness :
    has_matches (grid_of 2 2 50 [COLOR_GREEN, COLOR_BLUE, COLOR_RED, COLOR_RED]) = some true :=
  (C15_has_matches_finds_adjacent_pair
    (grid_of 2 2 50 [COLOR_GREEN, COLOR_BLUE, COLOR_RED, COLOR_RED]) (by decide) 2 3
    (by decide) (by decide) (by decide) (by decide) (by decide) (by decide) (by decide)).1

/-! ## The layout invariant of the game's grids -/

theorem nested_range_spec {α : Type} (rows : Nat) (f : Nat → Nat → α) :
    ∀ cols : Nat,
      ((List.range cols).flatMap (fun j => (List.range rows).map (fun i => f i j))).length =
        cols * rows ∧
      ∀ k, k < cols * rows →
        ((List.range cols).flatMap (fun j => (List.range rows).map (fun i => f i j)))[k]? =
          some (f (k % rows) (k / rows)) := by
  intro cols
  induction cols with
  | zero => simp
  | succ c ih =>
    obtain ⟨hlen, hget⟩ := ih
    rw [List.range_succ, List.flatMap_append, List.flatMap_singleton]
    refine ⟨by rw [List.length_append, hlen]; simp [Nat.succ_mul], ?_⟩
    intro k hk
    by_cases hkc : k < c * rows
    · rw [List.getElem?_append_left (by rw [hlen]; exact hkc)]
      exact hget k hkc
    · have hk2 : k < c * rows + rows := by rw [Nat.succ_mul] at hk; exact hk
      rw [List.getElem?_append_right (by rw [hlen]; omega), hlen, List.getElem?_map,
        List.getElem?_range (by omega)]
      have hq : k / rows = c :=
        Nat.div_eq_of_lt_le (by omega) (by rw [Nat.succ_mul]; exact hk2)
      have hm := Nat.div_add_mod k rows
      rw [hq, Nat.mul_comm] at hm
      have hr : k % rows = k - c * rows := by omega
      simp [hq, hr]

theorem initialise_grid_square (n s : Int) (hn : 1 ≤ n) :
    WellFormed (initialise_grid empty_grid n n s) ∧
    (initialise_grid empty_grid n n s).width = n ∧
    (initialise_grid empty_grid n n s).height = n ∧
    (initialise_grid empty_grid n n s).size = s := by
  refine ⟨?_, rfl, rfl, rfl⟩
  obtain ⟨m, rfl⟩ := Int.eq_ofNat_of_zero_le (show 0 ≤ n by omega)
  have hspec := nested_range_spec m
    (fun i j => ({ x_pos := (i : Int), y_pos := (j : Int), cell_colour := COLOR_WHITE } :
      cell_data)) m
  have hcells : (initialise_grid empty_grid (m : Int) (m : Int) s).cells =
      (List.range m).flatMap (fun j => (List.range m).map (fun (i : Nat) =>
        ({ x_pos := (i : Int), y_pos := (j : Int), cell_colour := COLOR_WHITE } :
          cell_data))) := by
    simp only [initialise_grid, empty_grid, List.nil_append, Int.toNat_ofNat]
    congr 1
    funext j
    have hfm : ∀ (l : List Nat) (f : Nat → cell_data),
        l.flatMap (fun a => [f a]) = l.map f := by
      intro l f
      induction l with
      | nil => rfl
      | cons a t ih => simp [ih]
    simp only [List.map_flatMap, List.bind_eq_flatMap, List.pure_def, List.map_cons,
      List.map_nil]
    exact hfm _ _
  apply wellFormed_of_cell_at _ hn hn
  · show (((initialise_grid empty_grid (m : Int) (m : Int) s).cells.length : Nat) : Int) =
      (m : Int) * (m : Int)
    rw [hcells, hspec.1]
    push_cast
    rfl
  · intro k hk0 hk c hc
    obtain ⟨kk, rfl⟩ := Int.eq_ofNat_of_zero_le hk0
    have hkk : kk < m * m := by
      have : ((kk : Nat) : Int) < (m : Int) * (m : Int) := hk
      exact_mod_cast this
    rw [cell_at_natCast, hcells, hspec.2 kk hkk] at hc
    cases hc
    exact ⟨by show ((kk % m : Nat) : Int) = _; push_cast; rfl,
      by show ((kk / m : Nat) : Int) = _; push_cast; rfl⟩

theorem colour_cell_positions (c : cell_data) (d : Int) :
    (colour_cell c d).1.x_pos = c.x_pos ∧ (colour_cell c d).1.y_pos = c.y_pos :=
  ⟨rfl, rfl⟩

theorem assign_colours_loop_positions (rnd : Nat → Int) (cells : List cell_data) :
    ∀ k : Nat, (assign_colours_loop rnd k cells).1.map (fun c => (c.x_pos, c.y_pos)) =
      cells.map (fun c => (c.x_pos, c.y_pos)) := by
  induction cells with
  | nil => intro k; rfl
  | cons c rest ih =>
    intro k
    simp only [assign_colours_loop, List.map_cons, ih (k + 1), (colour_cell_positions c _).1,
      (colour_cell_positions c _).2]

theorem assign_colours_wellFormed (g : grid_data) (rnd : Nat → Int) (hg : WellFormed g) :
    WellFormed (assign_colours g rnd).1 := by
  have hmap := assign_colours_loop_positions rnd g.cells 0
  have hlen : (assign_colours_loop rnd 0 g.cells).1.length = g.cells.length := by
    have := congrArg List.length hmap
    simpa using this
  apply wellFormed_of_same_positions g (assign_colours g rnd).1 hg rfl rfl hlen
  intro k c hc
  have hb := cell_at_some_bounds _ k c hc
  obtain ⟨n, rfl⟩ := Int.eq_ofNat_of_zero_le hb.1
  rw [cell_at_natCast] at hc
  have h1 : ((assign_colours_loop rnd 0 g.cells).1.map (fun c => (c.x_pos, c.y_pos)))[n]? =
      some (c.x_pos, c.y_pos) := by
    rw [List.getElem?_map]
    have : (assign_colours g rnd).1.cells = (assign_colours_loop rnd 0 g.cells).1 := rfl
    rw [← this, hc]
    rfl
  rw [hmap, List.getElem?_map] at h1
  obtain ⟨c0, hc0, hpos⟩ := Option.map_eq_some'.1 h1
  refine ⟨c0, by rw [cell_at_natCast]; exact hc0, ?_, ?_⟩
  · exact (congrArg Prod.fst hpos).symm
  · exact (congrArg Prod.snd hpos).symm

theorem update_cell_positions_wellFormed (g : grid_data) (hg : WellFormed g)
    (hsq : g.height = g.width) :
    ∃ r, update_cell_positions g = some r ∧ WellFormed r ∧ r.width = g.width ∧
      r.height = g.height ∧ r.size = g.size ∧ r.cells.length = g.cells.length := by
  obtain ⟨r, hr, hwr, hw, hh, hs, hl, _⟩ :=
    scan_induction g hg hsq (fun _ _ => True) trivial (fun _ _ _ _ _ _ _ _ _ => trivial)
      g.cells.length (le_refl _)
  exact ⟨r, hr, hwr, hw, hh, hs, hl⟩

theorem reachable_wellFormed (n s : Int) (hn : 1 ≤ n) (g : grid_data) (h : Reachable n s g) :
    WellFormed g ∧ g.width = n ∧ g.height = n ∧ g.size = s := by
  induction h with
  | init => exact initialise_grid_square n s hn
  | assign g rnd _ ih =>
    exact ⟨assign_colours_wellFormed g rnd ih.1, ih.2.1, ih.2.2.1, ih.2.2.2⟩
  | click g r i _ hi0 hi hr ih =>
    obtain ⟨hg, hw, hh, hs⟩ := ih
    obtain ⟨r1, hr1, hwf, hs1⟩ := check_neighbours_wellFormed g hg i hi0
      (by rw [hw, hh]; exact hi)
    obtain ⟨_, r2, _, hr2, hw2, hh2, _⟩ := check_neighbours_spec g hg i hi0
      (by rw [hw, hh]; exact hi)
    rw [hr] at hr1 hr2
    cases hr1
    cases hr2
    exact ⟨hwf, by omega, by omega, by omega⟩
  | settle g r _ hr ih =>
    obtain ⟨hg, hw, hh, hs⟩ := ih
    obtain ⟨r1, hr1, hwf, hw1, hh1, hs1, _⟩ :=
      update_cell_positions_wellFormed g hg (by omega)
    rw [hr] at hr1
    cases hr1
    exact ⟨hwf, by omega, by omega, by omega⟩

/-- C14: for every `n >= 1` and every cell size, each grid reached from
`initialise_grid(n, n, s)` by any finite sequence of `assign_colours`,
`check_neighbours` at an index in `[0, n*n)` and `update_cell_positions` has
`width = height = n`, exactly `n*n` cells, and stores at index `k` the column
`k mod n` and the row `k div n`; on such a grid `check_neighbours` at an
in-range index and `update_cell_positions` do return a grid, so the sequence
can always be continued. -/
theorem C14_layout_invariant (n s : Int) (hn : 1 ≤ n) (g : grid_data) (h : Reachable n s g) :
    g.width = n ∧ g.height = n ∧ (g.cells.length : Int) = n * n ∧
    (∀ k : Fin g.cells.length,
      (g.cells.get k).x_pos = ((k : Nat) : Int) % n ∧
      (g.cells.get k).y_pos = ((k : Nat) : Int) / n) ∧
    (∀ i : Int, 0 ≤ i → i < n * n → ∃ r, check_neighbours g i = some r) ∧
    (∃ r, update_cell_positions g = some r) := by
  obtain ⟨hg, hw, hh, _⟩ := reachable_wellFormed n s hn g h
  refine ⟨hw, hh, by rw [hg.2.2.1, hw, hh], ?_, ?_, ?_⟩
  · intro k
    have := hg.2.2.2 k
    rw [hw] at this
    exact this
  · intro i hi0 hi
    obtain ⟨r, hr, _⟩ := check_neighbours_wellFormed g hg i hi0 (by rw [hw, hh]; exact hi)
    exact ⟨r, hr⟩
  · obtain ⟨r, hr, _⟩ := update_cell_positions_wellFormed g hg (by omega)
    exact ⟨r, hr⟩

/-- Witness for C14: the 2 x 2 grid after `initialise_grid` and one
`assign_colours` with the draws `0, 0, ...`. -/
theorem C14_layout_invariant_witness :
    (assign_colours (initialise_grid empty_grid 2 2 50) (fun _ => 0)).1.width = 2 ∧
    (assign_colours (initialise_grid empty_grid 2 2 50) (fun _ => 0)).1.height = 2 ∧
    (((assign_colours (initialise_grid empty_grid 2 2 50) (fun _ => 0)).1.cells.length : Nat) :
      Int) = 2 * 2 :=
  ⟨(C14_layout_invariant 2 50 (by decide) _
      (Reachable.assign _ (fun _ => 0) Reachable.init)).1,
   (C14_layout_invariant 2 50 (by decide) _
      (Reachable.assign _ (fun _ => 0) Reachable.init)).2.1,
   (C14_layout_invariant 2 50 (by decide) _
      (Reachable.assign _ (fun _ => 0) Reachable.init)).2.2.1⟩

/-! ## Columns keep their cells -/

theorem column_filter_succ (f : Nat → Option color) (h : Nat) :
    (((List.range (h + 1)).filterMap f).filter (fun x => decide (x ≠ COLOR_WHITE))) =
      (((List.range h).filterMap f).filter (fun x => decide (x ≠ COLOR_WHITE))) ++
        ((List.filterMap f [h]).filter (fun x => decide (x ≠ COLOR_WHITE))) := by
  rw [List.range_succ, List.filterMap_append, List.filter_append]

theorem column_filter_swap (f f' : Nat → Option color) (y : Nat) (X : color)
    (hX : X ≠ COLOR_WHITE) (h1 : f y = some X) (h2 : f (y + 1) = some COLOR_WHITE)
    (h3 : f' y = some COLOR_WHITE) (h4 : f' (y + 1) = some X)
    (h5 : ∀ r, r ≠ y → r ≠ y + 1 → f' r = f r) :
    ∀ h : Nat,
      (h ≤ y →
        ((List.range h).filterMap f').filter (fun x => decide (x ≠ COLOR_WHITE)) =
          ((List.range h).filterMap f).filter (fun x => decide (x ≠ COLOR_WHITE))) ∧
      (h = y + 1 →
        ((List.range h).filterMap f').filter (fun x => decide (x ≠ COLOR_WHITE)) =
            ((List.range y).filterMap f).filter (fun x => decide (x ≠ COLOR_WHITE)) ∧
        ((List.range h).filterMap f).filter (fun x => decide (x ≠ COLOR_WHITE)) =
            ((List.range y).filterMap f).filter (fun x => decide (x ≠ COLOR_WHITE)) ++ [X]) ∧
      (y + 2 ≤ h →
        ((List.range h).filterMap f').filter (fun x => decide (x ≠ COLOR_WHITE)) =
          ((List.range h).filterMap f).filter (fun x => decide (x ≠ COLOR_WHITE))) := by
  intro h
  induction h with
  | zero =>
    refine ⟨fun _ => rfl, fun h => by omega, fun h => by omega⟩
  | succ h ih =>
    obtain ⟨ihA, ihB, ihC⟩ := ih
    refine ⟨?_, ?_, ?_⟩
    · intro hle
      rw [column_filter_succ f' h, column_filter_succ f h, ihA (by omega)]
      simp only [List.filterMap_cons, List.filterMap_nil, h5 h (by omega) (by omega)]
    · intro heq
      have hhy : h = y := by omega
      subst hhy
      refine ⟨?_, ?_⟩
      · rw [column_filter_succ f' h, ihA (le_refl _)]
        simp [List.filterMap_cons, h3]
      · rw [column_filter_succ f h]
        simp [List.filterMap_cons, h1, hX]
    · intro hge
      by_cases hh : h = y + 1
      · subst hh
        obtain ⟨hB1, hB2⟩ := ihB rfl
        rw [column_filter_succ f' (y + 1), column_filter_succ f (y + 1), hB1, hB2]
        simp [List.filterMap_cons, h2, h4, hX]
      · rw [column_filter_succ f' h, column_filter_succ f h, ihC (by omega)]
        simp only [List.filterMap_cons, List.filterMap_nil, h5 h (by omega) (by omega)]

theorem add_width_div (w k : Int) (hw : 1 ≤ w) : (k + w) / w = k / w + 1 ∧ (k + w) % w = k % w := by
  constructor
  · have := Int.add_mul_ediv_right k 1 (show w ≠ 0 by omega)
    rw [Int.one_mul] at this
    exact this
  · have := @Int.add_mul_emod_self k 1 w
    rw [Int.one_mul] at this
    exact this

theorem update_cell_step_columns (a : grid_data) (ha : WellFormed a) (hsq : a.height = a.width)
    (k : Int) (hk0 : 0 ≤ k) (hk : k < a.width * a.height) (r : grid_data)
    (hr : update_cell_step a k = some r) (c : Int) (hc0 : 0 ≤ c) (hc : c < a.width) :
    column_colours r c = column_colours a c := by
  obtain ⟨r1, hr1, _, hw, hh, _, _, hcase⟩ := update_cell_step_spec a ha hsq k hk0 hk
  rw [hr] at hr1
  cases hr1
  rcases hcase with ⟨h, _⟩ | ⟨⟨hrow, hbelow, hnw⟩, hwk, hbk, hothers⟩
  · rw [h]
  · have hw1 : 1 ≤ a.width := ha.1
    obtain ⟨hx0, hxw, hy0, hdec⟩ := row_col a.width k hw1 hk0
    obtain ⟨hkw1, hkw2⟩ := add_width_div a.width k hw1
    have hcol : ∀ j, j ≠ k → j ≠ k + a.width → colour_at r j = colour_at a j := by
      intro j h1 h2
      rw [colour_at, colour_at, hothers j h1 h2]
    unfold column_colours
    rw [hw, hh]
    by_cases hck : k % a.width = c
    · obtain ⟨y, hy⟩ := Int.eq_ofNat_of_zero_le hy0
      have hk_eq : c + (y : Int) * a.width = k := by rw [← hy, ← hck]; omega
      have hk_eq2 : c + ((y + 1 : Nat) : Int) * a.width = k + a.width := by
        push_cast
        rw [Int.add_mul]
        omega
      obtain ⟨ck, hcell, _⟩ := wellFormed_cell_at a ha k hk0 hk
      have hX : colour_at a k = some ck.cell_colour := colour_at_eq a k ck hcell
      have hXw : ck.cell_colour ≠ COLOR_WHITE := fun h => hnw (by rw [hX, h])
      refine (column_filter_swap (fun r' => colour_at a (c + (r' : Int) * a.width))
        (fun r' => colour_at r (c + (r' : Int) * a.width)) y ck.cell_colour hXw
        ?_ ?_ ?_ ?_ ?_ a.height.toNat).2.2 (by omega)
      · show colour_at a (c + (y : Int) * a.width) = _
        rw [hk_eq, hX]
      · show colour_at a (c + ((y + 1 : Nat) : Int) * a.width) = _
        rw [hk_eq2, hbelow]
      · show colour_at r (c + (y : Int) * a.width) = _
        rw [hk_eq, hwk]
      · show colour_at r (c + ((y + 1 : Nat) : Int) * a.width) = _
        rw [hk_eq2, hbk, hX]
      · intro r' h1 h2
        have hd := index_mod_div a.width c (r' : Int) hc0 hc
        apply hcol
        · intro he
          rw [he] at hd
          omega
        · intro he
          rw [he, hkw1] at hd
          omega
    · have hfun : (fun r' : Nat => colour_at r (c + (r' : Int) * a.width)) =
          (fun r' : Nat => colour_at a (c + (r' : Int) * a.width)) := by
        funext r'
        have hd := index_mod_div a.width c (r' : Int) hc0 hc
        apply hcol
        · intro he
          rw [he] at hd
          exact hck hd.1
        · intro he
          rw [he, hkw2] at hd
          exact hck hd.1
      rw [hfun]

/-- C17: on a well-formed square grid one pass of `update_cell_positions`
returns a grid in which every column has the same top-to-bottom sequence of
non-white colours as before, with the same number of cells, width, height and
size. -/
theorem C17_pass_conserves_columns (g : grid_data) (hg : WellFormed g)
    (hsq : g.width = g.height) :
    ∃ r, update_cell_positions g = some r ∧
      (∀ c : Int, 0 ≤ c → c < g.width → column_colours r c = column_colours g c) ∧
      r.cells.length = g.cells.length ∧ r.width = g.width ∧ r.height = g.height ∧
      r.size = g.size := by
  obtain ⟨r, hr, _, hw, hh, hs, hl, hP⟩ :=
    scan_induction g hg hsq.symm
      (fun _ a => ∀ c : Int, 0 ≤ c → c < g.width → column_colours a c = column_colours g c)
      (fun _ _ _ => rfl)
      (fun k a r hk hwa hw hh hPa hr c hc0 hc => by
        have hkr : ((k : Nat) : Int) < a.width * a.height := by
          rw [hw, hh, ← hg.2.2.1]; exact_mod_cast hk
        rw [update_cell_step_columns a hwa (by rw [hh, hw, hsq]) (k : Int) (by omega) hkr r hr c
          hc0 (by rw [hw]; exact hc)]
        exact hPa c hc0 hc)
      g.cells.length (le_refl _)
  exact ⟨r, hr, hP, hl, hw, hh, hs⟩

/-- Witness for C17: the 2 x 2 grid red, green over white, white; both cells
fall one row and each column keeps its colour. -/
theorem C17_pass_conserves_columns_witness :
    ∃ r, update_cell_positions
        (grid_of 2 2 50 [COLOR_RED, COLOR_GREEN, COLOR_WHITE, COLOR_WHITE]) = some r ∧
      (∀ c : Int, 0 ≤ c → c < 2 →
        column_colours r c =
          column_colours (grid_of 2 2 50 [COLOR_RED, COLOR_GREEN, COLOR_WHITE, COLOR_WHITE]) c) ∧
      r.cells.length =
        (grid_of 2 2 50 [COLOR_RED, COLOR_GREEN, COLOR_WHITE, COLOR_WHITE]).cells.length ∧
      r.width = 2 ∧ r.height = 2 ∧ r.size = 50 :=
  C17_pass_conserves_columns (grid_of 2 2 50 [COLOR_RED, COLOR_GREEN, COLOR_WHITE, COLOR_WHITE])
    (by decide) (by decide)

/-! ## Repeated passes compact every column -/

theorem can_fall_congr (a b : grid_data) (hw : b.width = a.width) (hh : b.height = a.height)
    (j : Int) (h1 : cell_at b j = cell_at a j)
    (h2 : cell_at b (j + a.width) = cell_at a (j + a.width)) : can_fall b j ↔ can_fall a j := by
  unfold can_fall colour_at
  rw [hw, hh, h1, h2]

theorem exists_max_index (P : Nat → Prop) (N : Nat) (h : ∃ j : Nat, j < N ∧ P j) :
    ∃ j : Nat, j < N ∧ P j ∧ ∀ j' : Nat, j < j' → j' < N → ¬ P j' := by
  induction N with
  | zero =>
    obtain ⟨j, hj, _⟩ := h
    omega
  | succ N ih =>
    by_cases hP : P N
    · exact ⟨N, by omega, hP, fun j' h1 h2 => by omega⟩
    · obtain ⟨j, hj, hPj⟩ := h
      have hjN : j < N := by
        rcases Nat.lt_succ_iff_lt_or_eq.1 hj with h1 | h1
        · exact h1
        · subst h1; exact absurd hPj hP
      obtain ⟨m, hm, hPm, hmax⟩ := ih ⟨j, hjN, hPj⟩
      refine ⟨m, by omega, hPm, fun j' h1 h2 => ?_⟩
      rcases Nat.lt_succ_iff_lt_or_eq.1 h2 with h3 | h3
      · exact hmax j' h1 h3
      · subst h3; exact hP

theorem same_column_row_eq (w i j : Int) (hw : 1 ≤ w) (hi : 0 ≤ i) (hj : 0 ≤ j)
    (hcol : i % w = j % w) (hrow : i / w = j / w) : i = j := by
  obtain ⟨_, _, _, hdi⟩ := row_col w i hw hi
  obtain ⟨_, _, _, hdj⟩ := row_col w j hw hj
  rw [hrow, hcol] at hdi
  omega

theorem column_nonwhite_below (a : grid_data) (ha : WellFormed a) (c R : Int)
    (hR0 : 0 ≤ R) (hRc : R % a.width = c) (hRw : colour_at a R ≠ some COLOR_WHITE)
    (hno : ∀ j : Int, 0 ≤ j → j < a.width * a.height → j % a.width = c →
      R / a.width ≤ j / a.width → ¬ can_fall a j) :
    ∀ (d : Nat) (j : Int), 0 ≤ j → j < a.width * a.height → j % a.width = c →
      j / a.width = R / a.width + (d : Int) → colour_at a j ≠ some COLOR_WHITE := by
  have hw := ha.1
  intro d
  induction d with
  | zero =>
    intro j hj0 _ hjc hrow
    have : j = R := same_column_row_eq a.width j R hw hj0 hR0 (by rw [hjc, hRc])
      (by rw [hrow]; simp)
    rw [this]
    exact hRw
  | succ d ih =>
    intro j hj0 hj hjc hrow
    have hRrow : 0 ≤ R / a.width := Int.ediv_nonneg hR0 (by omega)
    obtain ⟨_, _, _, hdec⟩ := row_col a.width j hw hj0
    have hge := mul_row_le a.width 1 (j / a.width) hw (by push_cast at hrow; omega)
    have hj' : 0 ≤ j - a.width := by omega
    obtain ⟨hd1, hd2⟩ := add_width_div a.width (j - a.width) hw
    rw [Int.sub_add_cancel] at hd1 hd2
    have hrow' : (j - a.width) / a.width = R / a.width + (d : Int) := by
      push_cast at hrow
      omega
    have hprev := ih (j - a.width) hj' (by omega) (by rw [← hd2, hjc]) hrow'
    have hnf := hno (j - a.width) hj' (by omega) (by rw [← hd2, hjc]) (by omega)
    have hjrow := row_lt a.width a.height j hw hj
    intro hwhite
    apply hnf
    refine ⟨by omega, ?_, hprev⟩
    rw [Int.sub_add_cancel]
    exact hwhite

theorem pass_keeps_compact_column (g : grid_data) (hg : WellFormed g) (hsq : g.height = g.width)
    (c : Int) (hcomp : col_compact g c) :
    ∃ r, update_cell_positions g = some r ∧ col_compact r c := by
  have hw1 : 1 ≤ g.width := hg.1
  obtain ⟨r, hr, _, hw, hh, _, _, hP⟩ :=
    scan_induction g hg hsq (fun _ a => ∀ j : Int, j % g.width = c → cell_at a j = cell_at g j)
      (fun _ _ => rfl)
      (fun k a r hk hwa hw hh hPa hr j hjc => by
        have hkr : ((k : Nat) : Int) < a.width * a.height := by
          rw [hw, hh, ← hg.2.2.1]; exact_mod_cast hk
        obtain ⟨r1, hr1, _, _, _, _, _, hcase⟩ :=
          update_cell_step_spec a hwa (by rw [hh, hw, hsq]) (k : Int) (by omega) hkr
        rw [hr] at hr1
        cases hr1
        rcases hcase with ⟨h, _⟩ | ⟨hfall, _, _, hothers⟩
        · rw [h]; exact hPa j hjc
        · obtain ⟨_, hmod⟩ := add_width_div g.width (k : Int) hw1
          by_cases hkc : ((k : Nat) : Int) % g.width = c
          · exfalso
            have hcf : can_fall g (k : Int) :=
              (can_fall_congr g a hw hh (k : Int) (hPa _ hkc)
                (hPa _ (by rw [hmod]; exact hkc))).1 hfall
            exact hcomp (k : Int) (by omega) (by rw [← hw, ← hh]; exact hkr) hkc hcf
          · rw [hothers j (fun h => hkc (h ▸ hjc)) (fun h => hkc (by
              rw [hw] at h
              rw [← hmod, ← h]; exact hjc))]
            exact hPa j hjc)
      g.cells.length (le_refl _)
  refine ⟨r, hr, ?_⟩
  intro j hj0 hj hjc hfall
  rw [hw] at hjc
  rw [hw, hh] at hj
  obtain ⟨_, hmod⟩ := add_width_div g.width j hw1
  exact hcomp j hj0 hj hjc
    ((can_fall_congr g r hw hh j (hP j hjc) (hP _ (by rw [hmod]; exact hjc))).1 hfall)

theorem carrier_step (a : grid_data) (ha : WellFormed a) (hsq : a.height = a.width)
    (c T : Int) (k : Int) (hk0 : 0 ≤ k) (hk : k < a.width * a.height) (r : grid_data)
    (hr : update_cell_step a k = some r) (hinv : carrier_inv a c T k) :
    carrier_inv r c T (k + 1) := by
  obtain ⟨hfull, R, hR0, hR, hRc, hRw, hRT, hno, hkR⟩ := hinv
  obtain ⟨r1, hr1, _, hw, hh, _, _, hcase⟩ := update_cell_step_spec a ha hsq k hk0 hk
  rw [hr] at hr1
  cases hr1
  have hw1 : 1 ≤ a.width := ha.1
  rcases hcase with ⟨hra, hnf⟩ | ⟨hfall, hwk, hbk, hothers⟩
  · -- nothing moves
    subst hra
    refine ⟨hfull, R, hR0, hR, hRc, hRw, hRT, hno, ?_⟩
    rcases hkR with h | h
    · by_cases hk_eq : k = R
      · right; rw [← hk_eq]; exact hnf
      · left; omega
    · right; exact h
  · -- the cell at `k` moves one row down
    obtain ⟨hkd, hkm⟩ := add_width_div a.width k hw1
    obtain ⟨hb0, hbr, _, _⟩ := below_in_range a.width a.height k hw1 hk0 hfall.1
    have hcolr : ∀ j, j ≠ k → j ≠ k + a.width → colour_at r j = colour_at a j := by
      intro j h1 h2
      rw [colour_at, colour_at, hothers j h1 h2]
    have hcf : ∀ j, j ≠ k → j ≠ k + a.width → j + a.width ≠ k →
        (can_fall r j ↔ can_fall a j) := by
      intro j h1 h2 h3
      exact can_fall_congr a r hw hh j (hothers j h1 h2)
        (hothers (j + a.width) h3 (fun h => h1 (by omega)))
    unfold carrier_inv col_full_from
    rw [hw, hh]
    by_cases hkc : k % a.width = c
    · -- the moving cell is in column `c`
      have hbelow_lt : (k + a.width) / a.width < T := by
        by_contra hcon
        exact hfull (k + a.width) hb0 hbr (by rw [hkm]; exact hkc) (by omega) hfall.2.1
      have hfull' : ∀ j : Int, 0 ≤ j → j < a.width * a.height → j % a.width = c →
          T ≤ j / a.width → colour_at r j ≠ some COLOR_WHITE := by
        intro j hj0 hj hjc hjT
        rw [hcolr j (fun h => by rw [h] at hjT; omega) (fun h => by rw [h] at hjT; omega)]
        exact hfull j hj0 hj hjc hjT
      refine ⟨hfull', ?_⟩
      rcases Int.lt_trichotomy (k / a.width) (R / a.width) with hlt | heq | hgt
      · -- above the carrier
        have hkltR : k < R := by
          by_contra hcon
          have := Int.ediv_le_ediv (show (0 : Int) < a.width by omega)
            (show R ≤ k by omega)
          omega
        have hRk : R ≠ k := by omega
        have hRb : R ≠ k + a.width := fun h => hRw (by rw [h]; exact hfall.2.1)
        refine ⟨R, hR0, hR, hRc, by rw [hcolr R hRk hRb]; exact hRw, hRT, ?_, Or.inl (by omega)⟩
        intro j hj0 hj hjc hjrow
        obtain ⟨hjd, _⟩ := add_width_div a.width j hw1
        rw [hcf j (fun h => by rw [h] at hjrow; omega) (fun h => by rw [h] at hjrow; omega)
          (fun h => by rw [h] at hjd; omega)]
        exact hno j hj0 hj hjc hjrow
      · -- the carrier itself moves
        have hkR_eq : k = R :=
          same_column_row_eq a.width k R hw1 hk0 hR0 (by rw [hkc, hRc]) heq
        subst hkR_eq
        refine ⟨k + a.width, hb0, hbr, by rw [hkm]; exact hkc, ?_, by omega, ?_,
          Or.inl (by omega)⟩
        · rw [hbk]; exact hfall.2.2
        · intro j hj0 hj hjc hjrow
          obtain ⟨hjd, _⟩ := add_width_div a.width j hw1
          rw [hcf j (fun h => by rw [h] at hjrow; omega) (fun h => by rw [h] at hjrow; omega)
            (fun h => by rw [h] at hjd; omega)]
          exact hno j hj0 hj hjc (by omega)
      · -- below the carrier nothing can fall
        exact absurd hfall (hno k hk0 hk hkc hgt)
    · -- the moving cell is in another column
      have hne : ∀ j : Int, j % a.width = c → j ≠ k ∧ j ≠ k + a.width ∧ j + a.width ≠ k := by
        intro j hjc
        obtain ⟨_, hjm⟩ := add_width_div a.width j hw1
        refine ⟨fun h => hkc (h ▸ hjc), fun h => hkc (by rw [← hkm, ← h]; exact hjc),
          fun h => hkc (by rw [← h, hjm]; exact hjc)⟩
      refine ⟨?_, R, hR0, hR, hRc, ?_, hRT, ?_, ?_⟩
      · intro j hj0 hj hjc hjT
        rw [hcolr j (hne j hjc).1 (hne j hjc).2.1]
        exact hfull j hj0 hj hjc hjT
      · rw [hcolr R (hne R hRc).1 (hne R hRc).2.1]; exact hRw
      · intro j hj0 hj hjc hjrow
        rw [hcf j (hne j hjc).1 (hne j hjc).2.1 (hne j hjc).2.2]
        exact hno j hj0 hj hjc hjrow
      · rcases hkR with h | h
        · left
          have := (hne R hRc).1
          omega
        · right
          rw [hcf R (hne R hRc).1 (hne R hRc).2.1 (hne R hRc).2.2]
          exact h

theorem pass_fills_one_more_row (g : grid_data) (hg : WellFormed g) (hsq : g.height = g.width)
    (c T : Int) (hfull : col_full_from g c T) (hnc : ¬ col_compact g c) :
    ∃ r, update_cell_positions g = some r ∧ col_full_from r c (T - 1) := by
  have hw1 : 1 ≤ g.width := hg.1
  have hlen := hg.2.2.1
  -- the lowest cell of the column that can fall
  have hex : ∃ m : Nat, m < g.cells.length ∧
      (((m : Nat) : Int) % g.width = c ∧ can_fall g (m : Int)) := by
    unfold col_compact at hnc
    push_neg at hnc
    obtain ⟨j, hj0, hj, hjc, hjf⟩ := hnc
    obtain ⟨m, rfl⟩ := Int.eq_ofNat_of_zero_le hj0
    exact ⟨m, by rw [← hlen] at hj; exact_mod_cast hj, hjc, hjf⟩
  obtain ⟨p, hp, ⟨hpc, hpf⟩, hmax⟩ :=
    exists_max_index (fun m => ((m : Nat) : Int) % g.width = c ∧ can_fall g (m : Int))
      g.cells.length hex
  have hpr : ((p : Nat) : Int) < g.width * g.height := by rw [← hlen]; exact_mod_cast hp
  have hinit : carrier_inv g c T ((0 : Nat) : Int) := by
    obtain ⟨hb0, hbr, hbm, hbd⟩ := below_in_range g.width g.height (p : Int) hw1 (by omega) hpf.1
    refine ⟨hfull, (p : Int), by omega, hpr, hpc, hpf.2.2, ?_, ?_, Or.inl (by omega)⟩
    · by_contra hcon
      exact hfull ((p : Int) + g.width) hb0 hbr (by rw [hbm]; exact hpc) (by omega) hpf.2.1
    · intro j hj0 hj hjc hjrow hjf
      obtain ⟨m, rfl⟩ := Int.eq_ofNat_of_zero_le hj0
      have hpm : p < m := by
        by_contra hcon
        have := Int.ediv_le_ediv (show (0 : Int) < g.width by omega)
          (show ((m : Nat) : Int) ≤ (p : Int) by omega)
        omega
      exact hmax m hpm (by rw [← hlen] at hj; exact_mod_cast hj) ⟨hjc, hjf⟩
  obtain ⟨r, hr, hwr, hw, hh, _, hl, hP⟩ :=
    scan_induction g hg hsq (fun k a => carrier_inv a c T ((k : Nat) : Int)) hinit
      (fun k a r hk hwa hw hh hPa hr => by
        have hkr : ((k : Nat) : Int) < a.width * a.height := by
          rw [hw, hh, ← hg.2.2.1]; exact_mod_cast hk
        have := carrier_step a hwa (by rw [hh, hw, hsq]) c T (k : Int) (by omega) hkr r hr hPa
        show carrier_inv r c T ((k + 1 : Nat) : Int)
        rw [Nat.cast_succ]
        exact this)
      g.cells.length (le_refl _)
  refine ⟨r, hr, ?_⟩
  obtain ⟨_, R, hR0, hR, hRc, hRw, hRT, hno, hend⟩ := hP
  have hlenr : (g.cells.length : Int) = r.width * r.height := by rw [hw, hh]; exact hlen
  have hnfR : ¬ can_fall r R := by
    rcases hend with h | h
    · omega
    · exact h
  have hw1r : 1 ≤ r.width := hwr.1
  have hno' : ∀ j : Int, 0 ≤ j → j < r.width * r.height → j % r.width = c →
      R / r.width ≤ j / r.width → ¬ can_fall r j := by
    intro j hj0 hj hjc hjrow
    by_cases h : R / r.width < j / r.width
    · exact hno j hj0 hj hjc h
    · have : j = R := same_column_row_eq r.width j R hw1r hj0 hR0 (by rw [hjc, hRc])
        (by omega)
      rw [this]
      exact hnfR
  intro j hj0 hj hjc hjT
  exact column_nonwhite_below r hwr c R hR0 hRc hRw hno' (j / r.width - R / r.width).toNat j hj0
    hj hjc (by omega)

theorem pass_column_progress (g : grid_data) (hg : WellFormed g) (hsq : g.height = g.width)
    (c T : Int) (hT : col_compact g c ∨ col_full_from g c T) :
    ∃ r, update_cell_positions g = some r ∧ (col_compact r c ∨ col_full_from r c (T - 1)) := by
  by_cases hcomp : col_compact g c
  · obtain ⟨r, hr, hc⟩ := pass_keeps_compact_column g hg hsq c hcomp
    exact ⟨r, hr, Or.inl hc⟩
  · rcases hT with h | h
    · exact absurd h hcomp
    · obtain ⟨r, hr, hf⟩ := pass_fills_one_more_row g hg hsq c T h hcomp
      exact ⟨r, hr, Or.inr hf⟩

theorem passes_progress (g : grid_data) (hg : WellFormed g) (hsq : g.height = g.width) :
    ∀ t : Nat, ∃ r, update_cell_passes t g = some r ∧ WellFormed r ∧ r.width = g.width ∧
      r.height = g.height ∧
      ∀ c : Int, col_compact r c ∨ col_full_from r c (g.height - (t : Int)) := by
  intro t
  induction t with
  | zero =>
    refine ⟨g, rfl, hg, rfl, rfl, fun c => Or.inr ?_⟩
    intro j _ hj _ hjT
    have := row_lt g.width g.height j hg.1 hj
    simp at hjT
    omega
  | succ t ih =>
    obtain ⟨r, hr, hwr, hw, hh, hcols⟩ := ih
    obtain ⟨r1, hr1, hwr1, hw1, hh1, _⟩ :=
      update_cell_positions_wellFormed r hwr (by rw [hh, hw, hsq])
    refine ⟨r1, ?_, hwr1, by omega, by omega, ?_⟩
    · show (update_cell_passes t g).bind update_cell_positions = some r1
      rw [hr]
      exact hr1
    · intro c
      obtain ⟨r2, hr2, hprog⟩ := pass_column_progress r hwr (by rw [hh, hw, hsq]) c
        (g.height - (t : Int)) (hcols c)
      rw [hr1] at hr2
      cases hr2
      rw [Nat.cast_succ]
      rw [show g.height - ((t : Int) + 1) = g.height - (t : Int) - 1 by ring]
      exact hprog

/-- C18: on a well-formed square grid of side `n`, `n - 1` successive passes of
`update_cell_positions` return a grid in which no non-white cell has a white
cell directly below it; one more pass returns that same grid, and so does any
larger number of passes of the original grid. -/
theorem C18_settles_within_side_minus_one_passes (g : grid_data) (hg : WellFormed g)
    (hsq : g.width = g.height) :
    ∃ r, update_cell_passes (g.width - 1).toNat g = some r ∧
      (∀ i : Int, 0 ≤ i → i < g.width * g.height → ¬ can_fall r i) ∧
      update_cell_positions r = some r ∧
      ∀ t : Nat, (g.width - 1).toNat ≤ t → update_cell_passes t g = some r := by
  have hw1 : 1 ≤ g.width := hg.1
  obtain ⟨r, hr, hwr, hw, hh, hcols⟩ := passes_progress g hg hsq.symm (g.width - 1).toNat
  have hcompact : ∀ i : Int, 0 ≤ i → i < g.width * g.height → ¬ can_fall r i := by
    intro i hi0 hi hfall
    rw [← hw, ← hh] at hi
    rcases hcols (i % r.width) with hc | hf
    · exact hc i hi0 hi rfl hfall
    · obtain ⟨hb0, hbr, hbm, hbd⟩ :=
        below_in_range r.width r.height i hwr.1 hi0 hfall.1
      have hrow0 : 0 ≤ i / r.width := Int.ediv_nonneg hi0 (by have := hwr.1; omega)
      exact hf (i + r.width) hb0 hbr hbm (by rw [hbd]; omega) hfall.2.1
  have hfix : update_cell_positions r = some r :=
    scan_unchanged_before r hwr (by rw [hh, hw, hsq]) r.cells.length (le_refl _)
      (fun j hj => hcompact (j : Int) (by omega) (by
        rw [← hw, ← hh, ← hwr.2.2.1]; exact_mod_cast hj))
  refine ⟨r, hr, hcompact, hfix, ?_⟩
  intro t ht
  obtain ⟨d, rfl⟩ := Nat.exists_eq_add_of_le ht
  induction d with
  | zero => exact hr
  | succ d ih =>
    show (update_cell_passes ((g.width - 1).toNat + d) g).bind update_cell_positions = some r
    rw [ih (by omega)]
    exact hfix

/-- Witness for C18: the 2 x 2 grid red, green over white, white settles in
one pass to white, white over red, green. -/
theorem C18_settles_within_side_minus_one_passes_witness :
    ∃ r, update_cell_passes ((2 : Int) - 1).toNat
        (grid_of 2 2 50 [COLOR_RED, COLOR_GREEN, COLOR_WHITE, COLOR_WHITE]) = some r ∧
      (∀ i : Int, 0 ≤ i → i < 2 * 2 → ¬ can_fall r i) ∧
      update_cell_positions r = some r ∧
      ∀ t : Nat, ((2 : Int) - 1).toNat ≤ t →
        update_cell_passes t
          (grid_of 2 2 50 [COLOR_RED, COLOR_GREEN, COLOR_WHITE, COLOR_WHITE]) = some r :=
  C18_settles_within_side_minus_one_passes
    (grid_of 2 2 50 [COLOR_RED, COLOR_GREEN, COLOR_WHITE, COLOR_WHITE]) (by decide) (by decide)

/-! ## Click resolution in 32-bit arithmetic -/

theorem int32_of_range (x : Int) (h1 : -2147483648 ≤ x) (h2 : x ≤ 2147483647) :
    int32 x = x := by
  unfold int32
  omega

theorem grid_of_wellFormed (w h s : Int) (colours : List color) (hw : 1 ≤ w) (hh : 1 ≤ h)
    (hlen : (colours.length : Int) = w * h) : WellFormed (grid_of w h s colours) := by
  apply wellFormed_of_cell_at (grid_of w h s colours) hw hh
  · show (((colours.enum.map _).length : Nat) : Int) = w * h
    rw [List.length_map, List.enum_length]
    exact hlen
  · intro k hk0 _ c hc
    obtain ⟨n, rfl⟩ := Int.eq_ofNat_of_zero_le hk0
    rw [cell_at_natCast] at hc
    have hc' : (colours.enum.map (fun p =>
        ({ x_pos := (p.1 : Int) % w, y_pos := (p.1 : Int) / w, cell_colour := p.2 } :
          cell_data)))[n]? = some c := hc
    rw [List.getElem?_map, List.getElem?_enum] at hc'
    cases hcol : colours[n]? with
    | none => rw [hcol] at hc'; simp at hc'
    | some a =>
      rw [hcol] at hc'
      simp only [Option.map_some', Option.some.injEq] at hc'
      subst hc'
      exact ⟨rfl, rfl⟩

/-- C8, as stated, fails: on the well-formed grid of width 46341, height 1 and
cell size 46341 the pixel `(0, 0)` satisfies `0 <= x < width*size` and
`0 <= y < height*size`, but the `int` product `width*size` = 2147488281 wraps
to -2147479015, the test `mouse_x < width*size` fails and `cell_under_mouse`
returns -1, not `0 div 46341 + (0 div 46341) * 46341 = 0`. -/
theorem C8_counterexample_product_wraps :
    WellFormed (grid_of 46341 1 46341 (List.replicate 46341 COLOR_WHITE)) ∧
    (0 : Int) < 46341 * 46341 ∧ (0 : Int) < 1 * 46341 ∧
    int32 (46341 * 46341) = -2147479015 ∧
    cell_under_mouse (grid_of 46341 1 46341 (List.replicate 46341 COLOR_WHITE)) 0 0 =
      some (-1) ∧
    cell_under_mouse (grid_of 46341 1 46341 (List.replicate 46341 COLOR_WHITE)) 0 0 ≠
      some (0 / 46341 + (0 / 46341) * 46341) :=
  ⟨grid_of_wellFormed 46341 1 46341 _ (by decide) (by decide)
      (by rw [List.length_replicate]; rfl),
    by decide, by decide, by decide, by decide, by decide⟩

/-- C8, amended: for a grid with `width, height, size >= 1` whose products
`width*size`, `height*size` and `width*height` are at most `2^31 - 1` (no
`int` computation overflows) and a pixel `(x, y)` with `0 <= x < width*size`
and `0 <= y < height*size`, `cell_under_mouse` returns
`k = x div size + (y div size) * width`; `k` lies in `[0, width*height)`; on a
well-formed grid the cell at index `k` stores column `x div size` and row
`y div size`, so the square drawn for it contains the pixel; and the pixel
`(size*width - 1, size*height - 1)` resolves to `width*height - 1`. -/
theorem C8_cell_under_mouse_in_grid (g : grid_data) (x y : Int)
    (hw : 1 ≤ g.width) (hh : 1 ≤ g.height) (hs : 1 ≤ g.size)
    (hws : g.width * g.size ≤ 2147483647) (hhs : g.height * g.size ≤ 2147483647)
    (hwh : g.width * g.height ≤ 2147483647)
    (hx0 : 0 ≤ x) (hx : x < g.width * g.size) (hy0 : 0 ≤ y) (hy : y < g.height * g.size) :
    cell_under_mouse g x y = some (x / g.size + (y / g.size) * g.width) ∧
    0 ≤ x / g.size + (y / g.size) * g.width ∧
    x / g.size + (y / g.size) * g.width < g.width * g.height ∧
    (WellFormed g → ∃ c, cell_at g (x / g.size + (y / g.size) * g.width) = some c ∧
      c.x_pos = x / g.size ∧ c.y_pos = y / g.size ∧
      c.x_pos * g.size ≤ x ∧ x < c.x_pos * g.size + g.size ∧
      c.y_pos * g.size ≤ y ∧ y < c.y_pos * g.size + g.size) ∧
    cell_under_mouse g (g.size * g.width - 1) (g.size * g.height - 1) =
      some (g.width * g.height - 1) := by
  have hs0 : (0 : Int) < g.size := by omega
  have hsne : g.size ≠ 0 := by omega
  have hpw : 1 ≤ g.width * g.size := by
    have := Int.mul_le_mul hw hs (by omega) (by omega)
    omega
  have hph : 1 ≤ g.height * g.size := by
    have := Int.mul_le_mul hh hs (by omega) (by omega)
    omega
  have i1 : int32 (g.width * g.size) = g.width * g.size :=
    int32_of_range _ (by omega) hws
  have i2 : int32 (g.height * g.size) = g.height * g.size :=
    int32_of_range _ (by omega) hhs
  -- the result for any pixel inside the rectangle
  have key : ∀ x y : Int, 0 ≤ x → x < g.width * g.size → 0 ≤ y → y < g.height * g.size →
      cell_under_mouse g x y = some (x / g.size + (y / g.size) * g.width) ∧
      0 ≤ x / g.size + (y / g.size) * g.width ∧
      x / g.size + (y / g.size) * g.width < g.width * g.height ∧
      0 ≤ x / g.size ∧ x / g.size < g.width := by
    intro x y hx0 hx hy0 hy
    have hxd0 : 0 ≤ x / g.size := Int.ediv_nonneg hx0 (by omega)
    have hyd0 : 0 ≤ y / g.size := Int.ediv_nonneg hy0 (by omega)
    have hxd : x / g.size < g.width := Int.ediv_lt_of_lt_mul hs0 hx
    have hyd : y / g.size < g.height := Int.ediv_lt_of_lt_mul hs0 hy
    have hb := index_bounds g.width g.height (x / g.size) (y / g.size) hxd0 hxd hyd0 hyd
    have hcw0 : 0 ≤ (y / g.size) * g.width := Int.mul_nonneg hyd0 (by omega)
    have hwle : g.width ≤ g.width * g.height := by
      have := Int.mul_le_mul (Int.le_refl g.width) hh (by omega) (by omega)
      omega
    have hhle : g.height ≤ g.width * g.height := by
      have := Int.mul_le_mul hw (Int.le_refl g.height) (by omega) (by omega)
      omega
    have i3 : int32 (x / g.size) = x / g.size := int32_of_range _ (by omega) (by omega)
    have i4 : int32 (y / g.size) = y / g.size := int32_of_range _ (by omega) (by omega)
    have i5 : int32 ((y / g.size) * g.width) = (y / g.size) * g.width :=
      int32_of_range _ (by omega) (by omega)
    have i6 : int32 (x / g.size + (y / g.size) * g.width) =
        x / g.size + (y / g.size) * g.width := int32_of_range _ (by omega) (by omega)
    refine ⟨?_, hb.1, hb.2, hxd0, hxd⟩
    unfold cell_under_mouse
    rw [i1, i2, if_pos hx, if_pos hy, if_neg hsne]
    simp only []
    rw [Int.tdiv_eq_ediv hx0 (by omega), Int.tdiv_eq_ediv hy0 (by omega), i3, i4, i5, i6]
  obtain ⟨hres, hk0, hk, hxd0, hxd⟩ := key x y hx0 hx hy0 hy
  refine ⟨hres, hk0, hk, ?_, ?_⟩
  · intro hg
    obtain ⟨c, hc, hcx, hcy⟩ := wellFormed_cell_at g hg _ hk0 hk
    have hmd := index_mod_div g.width (x / g.size) (y / g.size) hxd0 hxd
    rw [hmd.1] at hcx
    rw [hmd.2] at hcy
    refine ⟨c, hc, hcx, hcy, ?_, ?_, ?_, ?_⟩
    · rw [hcx]; exact Int.ediv_mul_le x hsne
    · rw [hcx]
      have := Int.lt_ediv_add_one_mul_self x hs0
      linarith
    · rw [hcy]; exact Int.ediv_mul_le y hsne
    · rw [hcy]
      have := Int.lt_ediv_add_one_mul_self y hs0
      linarith
  · have e1 : (g.size * g.width - 1) / g.size = g.width - 1 := by
      have : g.size * g.width - 1 = (g.size - 1) + (g.width - 1) * g.size := by ring
      rw [this]
      exact (index_mod_div g.size (g.size - 1) (g.width - 1) (by omega) (by omega)).2
    have e2 : (g.size * g.height - 1) / g.size = g.height - 1 := by
      have : g.size * g.height - 1 = (g.size - 1) + (g.height - 1) * g.size := by ring
      rw [this]
      exact (index_mod_div g.size (g.size - 1) (g.height - 1) (by omega) (by omega)).2
    have c1 : g.size * g.width = g.width * g.size := Int.mul_comm _ _
    have c2 : g.size * g.height = g.height * g.size := Int.mul_comm _ _
    have hlast := (key (g.size * g.width - 1) (g.size * g.height - 1) (by omega) (by omega)
      (by omega) (by omega)).1
    rw [hlast, e1, e2]
    congr 1
    ring

/-- Witness for C8 (amended): the pixel `(75, 60)` on a 2 x 2 grid of 50-pixel
cells. -/
theorem C8_cell_under_mouse_in_grid_witness :
    cell_under_mouse (grid_of 2 2 50 [COLOR_RED, COLOR_GREEN, COLOR_BLUE, COLOR_RED]) 75 60 =
      some 3 :=
  (C8_cell_under_mouse_in_grid (grid_of 2 2 50 [COLOR_RED, COLOR_GREEN, COLOR_BLUE, COLOR_RED])
    75 60 (by decide) (by decide) (by decide) (by decide) (by decide) (by decide)
    (by decide) (by decide) (by decide) (by decide)).1

/-- C20: evaluation of `cell_under_mouse` and `handle_input` at the pixel
`(0, -2147483628)` on the well-formed 10 x 10 grid of cell size 1.  The test
`mouse_y < height*size` holds, `cell_col` is -2147483628 and the `int` product
`cell_col * width` = -21474836280 wraps to 200: `cell_under_mouse` returns
200, which is neither negative nor below `width*height = 100`, and
`handle_input` calls `check_neighbours` with it, which reads `cells[200]` out
of range. -/
theorem C20_negative_pixel_wraps_out_of_grid :
    WellFormed (grid_of 10 10 1 (List.replicate 100 COLOR_RED)) ∧
    int32 (-2147483628 * 10) = 200 ∧
    cell_under_mouse (grid_of 10 10 1 (List.replicate 100 COLOR_RED)) 0 (-2147483628) =
      some 200 ∧
    ¬ ((200 : Int) < 0 ∨ ((0 : Int) ≤ 200 ∧ (200 : Int) < 10 * 10)) ∧
    check_neighbours (grid_of 10 10 1 (List.replicate 100 COLOR_RED)) 200 = none ∧
    handle_input (grid_of 10 10 1 (List.replicate 100 COLOR_RED)) true 0 (-2147483628) false
      (fun _ => 0) = none :=
  ⟨grid_of_wellFormed 10 10 1 _ (by decide) (by decide)
      (by rw [List.length_replicate]; rfl),
    by decide, by decide, by decide, by decide, by decide⟩
end Samegame
